import Mathlib

/-!
Verification of the incremental synchronization engine of `surveydata`
(`src/surveydata/odkplatform.py`, class `ODKPlatform`).

The development shallowly embeds:
  * the record flattener (`flatten_json.flatten` with separator `/`), the
    `__id` → `KEY` column rename, and the repeat-group column pruning
    (lines 112–127 of `odkplatform.py`);
  * the query-filter construction (lines 96–104);
  * the full `sync_data` control loop (lines 82–186) as a state-passing
    function over an explicit storage world, producing a trace of the
    external calls it performs.

External collaborators (the pyodk client, `dateutil.parser.parse`, the
storage backends) are modelled as inputs: the batch returned by
`get_table`, the per-submission attachment listings, the success/failure
of each fallible call, and the timestamp parser are all fields of an
environment record, so every theorem quantifies over their behavior.
-/

namespace SurveyData

/-- A JSON-like value, the shape of one raw submission record returned by
the OData API (nested mappings/sequences with scalar leaves). -/
inductive JValue where
  | null : JValue
  | str : String → JValue
  | int : Int → JValue
  | bool : Bool → JValue
  | obj : List (String × JValue) → JValue
  | arr : List JValue → JValue

/-- `flatten_json._construct_key`: join an accumulated path and a new key
with the separator `/`; an empty (falsy) accumulated path is replaced by
the new key alone. -/
def joinKey (key sub : String) : String :=
  if key = "" then sub else key ++ "/" ++ sub

mutual

/-- `flatten_json.flatten(x, '/')`, inner worker `_flatten`: objects and
sequences recurse (sequence indices become path segments), every other
value is a leaf recorded at its accumulated path. -/
def flattenAux : JValue → String → List (String × JValue)
  | JValue.obj kvs, key => flattenObj kvs key
  | JValue.arr xs, key => flattenArr xs 0 key
  | v, key => [(key, v)]

/-- Worker of `flattenAux` for the entries of an object. -/
def flattenObj : List (String × JValue) → String → List (String × JValue)
  | [], _ => []
  | (k, v) :: rest, key => flattenAux v (joinKey key k) ++ flattenObj rest key

/-- Worker of `flattenAux` for the elements of a sequence, carrying the
element index. -/
def flattenArr : List JValue → Nat → String → List (String × JValue)
  | [], _, _ => []
  | v :: rest, i, key => flattenAux v (joinKey key (toString i)) ++ flattenArr rest (i + 1) key

end

/-- `flatten(x, '/')` on a whole record: the accumulated path starts empty
(Python passes `None`, which `_construct_key` treats as falsy). -/
def flattenRecord (j : JValue) : List (String × JValue) :=
  flattenAux j ""

mutual

/-- Modelled from the spec (§4.2 steps 1): the leaves of a record paired
with their path as a list of segments; "sequence indices are part of the
path". Used as the specification side of the flattener refinement. -/
def specLeaves : JValue → List (List String × JValue)
  | JValue.obj kvs => specLeavesObj kvs
  | JValue.arr xs => specLeavesArr xs 0
  | v => [([], v)]

/-- Worker of `specLeaves` for object entries. -/
def specLeavesObj : List (String × JValue) → List (List String × JValue)
  | [] => []
  | (k, v) :: rest =>
      (specLeaves v).map (fun pv => (k :: pv.1, pv.2)) ++ specLeavesObj rest

/-- Worker of `specLeaves` for sequence elements. -/
def specLeavesArr : List JValue → Nat → List (List String × JValue)
  | [], _ => []
  | v :: rest, i =>
      (specLeaves v).map (fun pv => (toString i :: pv.1, pv.2)) ++ specLeavesArr rest (i + 1)

end

/-- `ODKPlatform.ID_FIELD`: canonical unique submission ID field. -/
def ID_FIELD : String := "KEY"

/-- `ODKPlatform.ID_FIELD_API`: the ID field as returned by the API. -/
def ID_FIELD_API : String := "__id"

/-- `ODKPlatform.CURSOR_METADATA_ID`: reserved metadata key for the cursor. -/
def CURSOR_METADATA_ID : String := "__CURSOR__"

/-- `ODKPlatform.REPEAT_GROUP_COLUMN_SUFFIX`: suffix of columns
representing repeat groups. -/
def REPEAT_GROUP_COLUMN_SUFFIX : String := "@odata.navigationLink"

/-- Python `s.endswith(t)`, decided on the character sequences. -/
def strEndsWith (s t : String) : Bool :=
  t.data.isSuffixOf s.data

/-- Python `s.startswith(t)`, decided on the character sequences. -/
def strStartsWith (s t : String) : Bool :=
  t.data.isPrefixOf s.data

/-- Python `s[:-n]` for `n > 0`: drop the last `n` characters. -/
def strDropRight (s : String) (n : Nat) : String :=
  String.mk (s.data.take (s.data.length - n))

/-- `df.rename(columns={self.ID_FIELD_API: self.ID_FIELD})` on one column
name (line 115). -/
def renameCol (c : String) : String :=
  if c = ID_FIELD_API then ID_FIELD else c

/-- The rename applied to a flattened record. -/
def renameRecord (fs : List (String × JValue)) : List (String × JValue) :=
  fs.map (fun kv => (renameCol kv.1, kv.2))

/-- Line 118: the columns that represent repeat groups (OData navigation
links). -/
def navColumns (cols : List String) : List String :=
  cols.filter (fun c => strEndsWith c REPEAT_GROUP_COLUMN_SUFFIX)

/-- Line 123: `repeat_group_col[:-len(REPEAT_GROUP_COLUMN_SUFFIX)]`. -/
def baseName (g : String) : String :=
  strDropRight g REPEAT_GROUP_COLUMN_SUFFIX.length

/-- Line 124: a per-row repeat-group ID column under the base path of the
navigation column `g`. -/
def isRepeatIdCol (g c : String) : Bool :=
  strStartsWith c (baseName g ++ "/") && strEndsWith c "/__id"

/-- Lines 117–127: drop the navigation columns, then, for each of them in
order, drop the `__id` columns nested under its base path. -/
def dropNavAndIds (cols : List String) : List String :=
  let navs := navColumns cols
  let afterNav := cols.filter (fun c => !(navs.contains c))
  navs.foldl (fun acc g => acc.filter (fun c => !(isRepeatIdCol g c))) afterNav

/-- Python truthiness of an optional string (`None` and `""` are falsy). -/
def truthyOptStr : Option String → Bool
  | none => false
  | some s => s ≠ ""

/-- The timestamp condition of the query filter (line 98). -/
def timestampCond (c : String) : String :=
  "(__system/updatedAt ge " ++ c ++ " or __system/submissionDate ge " ++ c ++ ")"

/-- The rejected-review-state exclusion (line 104). -/
def REJECTED_COND : String := "__system/reviewState ne \x27rejected\x27"

/-- Lines 96–104: build the submission filter from the cursor read from
metadata and the `include_rejected` flag. -/
def buildFilter (cursor : Option String) (include_rejected : Bool) : String :=
  let f0 := match cursor with
    | some c => if c = "" then "" else timestampCond c
    | none => ""
  if include_rejected then f0
  else (if f0 = "" then "" else f0 ++ " and ") ++ REJECTED_COND

/-- Modelled from the spec (§4.3 filter construction): the list of filter
conditions — the timestamp condition exactly when a cursor was read, the
rejection exclusion exactly when rejected records are excluded; the filter
is their AND-combination. -/
def filterConditionsSpec (cursor : Option String) (include_rejected : Bool) : List String :=
  (if truthyOptStr cursor then [timestampCond ((cursor).getD "")] else []) ++
  (if include_rejected then [] else [REJECTED_COND])

/-- One row of the flattened DataFrame iterated by the per-submission loop
(lines 136–177): the system columns the loop reads, by name, plus the full
flat record passed to `store_submission` via `submission.to_dict()`. -/
structure Row where
  /-- `submission["KEY"]` (renamed from `__id`). -/
  key : String
  /-- `submission["__system/updatedAt"]` — `None` or a timestamp string. -/
  updatedAt : Option String
  /-- `submission["__system/submissionDate"]`. -/
  submissionDate : String
  /-- `submission["__system/attachmentsPresent"]`. -/
  attachmentsPresent : Int
  /-- the whole flat row, `submission.to_dict()`. -/
  fields : List (String × JValue)

/-- Lines 138–141: the record's last-touched timestamp — `updatedAt` if
truthy, otherwise `submissionDate`. -/
def lastTouched (r : Row) : String :=
  match r.updatedAt with
  | some s => if s = "" then r.submissionDate else s
  | none => r.submissionDate

/-- Lines 130–132: the initial cursor candidate taken from the last row of
the batch — its `updatedAt`, falling back to its `submissionDate` when
falsy. -/
def initNewCursor (r : Row) : String :=
  match r.updatedAt with
  | some s => if s = "" then r.submissionDate else s
  | none => r.submissionDate

/-- The state of one storage backend: stored submissions (id → flat
record), stored attachments (submission id, attachment name), scalar
metadata, and whether the data timezone has been tagged as UTC. -/
structure StorageState where
  subs : List (String × List (String × JValue))
  atts : List (String × String)
  meta : List (String × String)
  tzUTC : Bool

/-- `storage.get_metadata(key)`. -/
def StorageState.getMetadata (s : StorageState) (k : String) : Option String :=
  (s.meta.find? (fun kv => kv.1 = k)).map (fun kv => kv.2)

/-- `storage.query_submission(id)`: existence check. -/
def StorageState.query (s : StorageState) (id : String) : Bool :=
  s.subs.any (fun kv => kv.1 = id)

/-- `storage.store_submission(id, fields)`: persist/overwrite under `id`. -/
def StorageState.storeSub (s : StorageState) (id : String)
    (fs : List (String × JValue)) : StorageState :=
  { s with subs := (id, fs) :: s.subs.filter (fun kv => kv.1 ≠ id) }

/-- `storage.store_attachment(id, name, data)`. -/
def StorageState.storeAttachment (s : StorageState) (id name : String) : StorageState :=
  { s with atts := (id, name) :: s.atts.filter (fun kv => ¬(kv.1 = id ∧ kv.2 = name)) }

/-- `storage.store_metadata(key, value)`. -/
def StorageState.storeMeta (s : StorageState) (k v : String) : StorageState :=
  { s with meta := (k, v) :: s.meta.filter (fun kv => kv.1 ≠ k) }

/-- `storage.set_data_timezone(datetime.timezone.utc)`. -/
def StorageState.setTzUTC (s : StorageState) : StorageState :=
  { s with tzUTC := true }

/-- The two storage systems `sync_data` can touch: the primary `storage`
argument and the separate `attachment_storage` argument (when provided). -/
structure World where
  primary : StorageState
  separate : StorageState

/-- Where attachments go after lines 87–91 resolved the destination. -/
inductive AttDest where
  | noStore
  | primaryStore
  | separateStore
deriving DecidableEq, Repr

/-- Lines 87–91: `None` if `no_attachments`; the separate storage if one
was provided; otherwise the primary storage. -/
def resolveDest (no_attachments separateProvided : Bool) : AttDest :=
  if no_attachments then AttDest.noStore
  else if separateProvided then AttDest.separateStore
  else AttDest.primaryStore

/-- `attachment_storage.store_attachment(...)` on the resolved
destination; `noStore` is unreachable behind the guard. -/
def World.storeAtt (w : World) (dest : AttDest) (id name : String) : World :=
  match dest with
  | AttDest.separateStore => { w with separate := w.separate.storeAttachment id name }
  | _ => { w with primary := w.primary.storeAttachment id name }

/-- `storage.store_submission` always targets the primary storage. -/
def World.storeSubPrimary (w : World) (id : String) (fs : List (String × JValue)) : World :=
  { w with primary := w.primary.storeSub id fs }

/-- Observable external calls of one `sync_data` run, in order. -/
inductive Event where
  | getMetadata (key : String)
  | fetchTable (formId : String) (filter : String)
  | querySubmission (id : String)
  | fetchAttachmentList (id : String)
  | fetchAttachmentBytes (id : String) (name : String)
  | storeAttachment (dest : AttDest) (id : String) (name : String)
  | storeSubmission (id : String)
  | storeMetadata (key : String) (value : String)
  | setDataTimezoneUTC
deriving DecidableEq, Repr

/-- Ways a `sync_data` run can raise. -/
inductive SyncErr where
  /-- line 84: `ValueError`, not initialized for syncing. -/
  | config
  /-- line 130: `KeyError` — a truthy OData response with zero records
  yields an empty DataFrame without the `__system` columns. -/
  | emptyFrame
  /-- lines 158–169: transport error fetching an attachment
  (`raise_for_status`). -/
  | transport (id name : String)
  /-- line 176: storage failure persisting a submission. -/
  | storage (id : String)
deriving DecidableEq, Repr

/-- Behavior of the external collaborators during one run. -/
structure Env where
  /-- `dateutil.parser.parse`, abstracted to a comparable instant. -/
  parse : String → Int
  /-- `client.submissions.get_table(...)`: `none` models a falsy response
  (the `if response_data:` guard fails); `some rows` models the OData
  payload, whose `value` list is `rows` — the payload dict is truthy even
  when `rows` is empty. -/
  table : Option (List Row)
  /-- the attachment listing for a submission: (name, exists) pairs. -/
  attList : String → List (String × Bool)
  /-- whether streaming one attachment succeeds (`raise_for_status`). -/
  attBytesOk : String → String → Bool
  /-- whether `store_submission` succeeds for a given id. -/
  storeSubOk : String → Bool

/-- Arguments and configuration of one `sync_data` call. -/
structure SyncArgs where
  /-- `self.client is not None`. -/
  clientSome : Bool
  /-- `self.form_id`. -/
  form_id : String
  /-- whether the `attachment_storage` argument was passed. -/
  separateProvided : Bool
  no_attachments : Bool
  include_rejected : Bool
  /-- `storage.attachments_supported()`. -/
  primarySupportsAtts : Bool
  /-- `attachment_storage.attachments_supported()`. -/
  separateSupportsAtts : Bool

/-- `attachment_storage.attachments_supported()` of the resolved
destination (`false` is arbitrary for `noStore`, which the guard already
excludes). -/
def destSupportedFlag (a : SyncArgs) : Bool :=
  match resolveDest a.no_attachments a.separateProvided with
  | AttDest.noStore => false
  | AttDest.primaryStore => a.primarySupportsAtts
  | AttDest.separateStore => a.separateSupportsAtts

/-- Line 155–156 guard: a destination exists, it supports attachments, and
the record reports attachments present. -/
def attachGuard (dest : AttDest) (supp : Bool) (r : Row) : Bool :=
  decide (dest ≠ AttDest.noStore) && supp && decide (r.attachmentsPresent > 0)

/-- Mutable state of the per-submission loop. -/
structure LoopSt where
  world : World
  trace : List Event
  /-- `new_submission_list`. -/
  written : List String
  /-- `newcursor` (its parsed form `newcursor_dt` is always
  `env.parse newcursor`, so only the string is carried). -/
  newcursor : String

/-- Lines 161–173: stream each listed attachment that still exists into
the destination storage; a failed fetch raises. -/
def attachLoop (env : Env) (dest : AttDest) (subid : String) :
    List (String × Bool) → LoopSt → LoopSt × Option SyncErr
  | [], st => (st, none)
  | (name, ex) :: rest, st =>
    if ex then
      let st1 : LoopSt := { st with trace := st.trace ++ [Event.fetchAttachmentBytes subid name] }
      if env.attBytesOk subid name then
        attachLoop env dest subid rest
          { st1 with world := st1.world.storeAtt dest subid name,
                     trace := st1.trace ++ [Event.storeAttachment dest subid name] }
      else (st1, some (SyncErr.transport subid name))
    else attachLoop env dest subid rest st

/-- Lines 158–173: list the attachments of a submission, then stream them. -/
def attachPhase (env : Env) (dest : AttDest) (subid : String) (st : LoopSt) :
    LoopSt × Option SyncErr :=
  attachLoop env dest subid (env.attList subid)
    { st with trace := st.trace ++ [Event.fetchAttachmentList subid] }

/-- Lines 154–177: the write path of one record — attachments first (when
the guard holds), then the submission itself, appended to
`new_submission_list`. -/
def storePhase (env : Env) (dest : AttDest) (supp : Bool) (st : LoopSt) (r : Row) :
    LoopSt × Option SyncErr :=
  let afterAtt :=
    if attachGuard dest supp r then attachPhase env dest r.key st
    else (st, none)
  match afterAtt with
  | (st1, some e) => (st1, some e)
  | (st1, none) =>
    if env.storeSubOk r.key then
      ({ st1 with world := st1.world.storeSubPrimary r.key r.fields,
                  trace := st1.trace ++ [Event.storeSubmission r.key],
                  written := st1.written ++ [r.key] }, none)
    else (st1, some (SyncErr.storage r.key))

/-- Line 153: `if last_touched != cursor or not storage.query_submission(subid)`
— the existence check runs only when the first disjunct is false
(short-circuit), and a record is skipped only when both hold. -/
def dedupAndStore (env : Env) (cursor : Option String) (dest : AttDest) (supp : Bool)
    (st : LoopSt) (r : Row) : LoopSt × Option SyncErr :=
  if cursor = some (lastTouched r) then
    let st1 : LoopSt := { st with trace := st.trace ++ [Event.querySubmission r.key] }
    if st1.world.primary.query r.key then (st1, none)
    else storePhase env dest supp st1 r
  else storePhase env dest supp st r

/-- Lines 144–147: keep `newcursor` at the maximal parsed instant seen so
far, replacing it only on a strict increase. -/
def updateCursorSt (env : Env) (st : LoopSt) (r : Row) : LoopSt :=
  if env.parse (lastTouched r) > env.parse st.newcursor then
    { st with newcursor := lastTouched r }
  else st

/-- Lines 136–177: process one row of the DataFrame. -/
def processRow (env : Env) (cursor : Option String) (dest : AttDest) (supp : Bool)
    (st : LoopSt) (r : Row) : LoopSt × Option SyncErr :=
  dedupAndStore env cursor dest supp (updateCursorSt env st r) r

/-- `for index, submission in df.iterrows()`, stopping at the first raised
error. -/
def runRows (env : Env) (cursor : Option String) (dest : AttDest) (supp : Bool) :
    List Row → LoopSt → LoopSt × Option SyncErr
  | [], st => (st, none)
  | r :: rs, st =>
    match processRow env cursor dest supp st r with
    | (st1, none) => runRows env cursor dest supp rs st1
    | (st1, some e) => (st1, some e)

/-- The loop over a non-empty batch, starting from the cursor candidate of
lines 130–132 (the last row of the batch). -/
def runBatch (env : Env) (cursor : Option String) (dest : AttDest) (supp : Bool)
    (r0 : Row) (rs : List Row) (w : World) (tr : List Event) : LoopSt × Option SyncErr :=
  runRows env cursor dest supp (r0 :: rs) ⟨w, tr, [], initNewCursor (rs.getLastD r0)⟩

/-- Result of one `sync_data` run: the final storage world, the trace of
external calls, and either the returned list or the raised error. -/
structure SyncOut where
  world : World
  trace : List Event
  result : Except SyncErr (List String)

/-- Lines 179–186: after the loop, persist the cursor and tag the storage
timezone as UTC when the candidate differs from the pre-sync cursor, then
return `new_submission_list`. -/
def finishBatch (cursor : Option String) (st : LoopSt) (e : Option SyncErr) : SyncOut :=
  match e with
  | some err => ⟨st.world, st.trace, Except.error err⟩
  | none =>
    if cursor = some st.newcursor then ⟨st.world, st.trace, Except.ok st.written⟩
    else
      ⟨{ st.world with primary := (st.world.primary.storeMeta CURSOR_METADATA_ID st.newcursor).setTzUTC },
       st.trace ++ [Event.storeMetadata CURSOR_METADATA_ID st.newcursor, Event.setDataTimezoneUTC],
       Except.ok st.written⟩

/-- The two calls every configured run makes before the loop: the cursor
metadata read (line 94) and the table fetch (line 107). -/
def syncTrace0 (a : SyncArgs) (w : World) : List Event :=
  [Event.getMetadata CURSOR_METADATA_ID,
   Event.fetchTable a.form_id
     (buildFilter (w.primary.getMetadata CURSOR_METADATA_ID) a.include_rejected)]

/-- Lines 93–186: everything after the configuration check. -/
def syncCore (a : SyncArgs) (env : Env) (w : World) : SyncOut :=
  let dest := resolveDest a.no_attachments a.separateProvided
  let cursor := w.primary.getMetadata CURSOR_METADATA_ID
  let tr := syncTrace0 a w
  match env.table with
  | none => ⟨w, tr, Except.ok []⟩
  | some [] => ⟨w, tr, Except.error SyncErr.emptyFrame⟩
  | some (r0 :: rs) =>
    let p := runBatch env cursor dest (destSupportedFlag a) r0 rs w tr
    finishBatch cursor p.1 p.2

/-- `ODKPlatform.sync_data` (lines 82–186). -/
def sync_data (a : SyncArgs) (env : Env) (w : World) : SyncOut :=
  if a.clientSome = false ∨ a.form_id = "" then ⟨w, [], Except.error SyncErr.config⟩
  else syncCore a env w

/-- Modelled from the spec (§4.4 step 7, §8 dedup boundary): the ids that
get written, in batch order — a record is skipped exactly when its
last-touched equals the pre-sync cursor and its id is already present,
where presence includes the writes made earlier in the same cycle. -/
def writtenIdsSpec (cursor : Option String) (present : List String) :
    List Row → List String
  | [] => []
  | r :: rs =>
    if cursor = some (lastTouched r) ∧ r.key ∈ present then
      writtenIdsSpec cursor present rs
    else r.key :: writtenIdsSpec cursor (r.key :: present) rs

/-! ### Concrete fixtures used by witnesses -/

/-- A record with no update timestamp and no attachments. -/
def exRow1 : Row :=
  { key := "s1", updatedAt := none, submissionDate := "a",
    attachmentsPresent := 0, fields := [(ID_FIELD, JValue.str "s1")] }

/-- A record with an update timestamp and one attachment. -/
def exRow2 : Row :=
  { key := "s2", updatedAt := some "ccc", submissionDate := "c",
    attachmentsPresent := 1, fields := [(ID_FIELD, JValue.str "s2")] }

/-- A record whose last-touched value is neither minimal nor maximal. -/
def exRow3 : Row :=
  { key := "s3", updatedAt := some "bb", submissionDate := "b",
    attachmentsPresent := 0, fields := [(ID_FIELD, JValue.str "s3")] }

/-- A small concrete environment: the parser compares string lengths, the
batch is `[exRow1, exRow2, exRow3]` (last-touched values out of order),
every external call succeeds. -/
def exEnv : Env :=
  { parse := fun s => (s.length : Int),
    table := some [exRow1, exRow2, exRow3],
    attList := fun _ => [("p.jpg", true), ("q.jpg", false)],
    attBytesOk := fun _ _ => true,
    storeSubOk := fun _ => true }

/-- A fully configured call with attachments going to primary storage. -/
def exArgs : SyncArgs :=
  { clientSome := true, form_id := "f", separateProvided := false,
    no_attachments := false, include_rejected := false,
    primarySupportsAtts := true, separateSupportsAtts := true }

/-- Empty storage on both sides. -/
def exWorld : World := ⟨⟨[], [], [], false⟩, ⟨[], [], [], false⟩⟩

/-! ### C8 — configuration error before any I/O -/

/-- C8: if the platform client is unconfigured or the form identifier is
empty, `sync_data` raises the configuration error with an empty call trace
and the storage world untouched: no network call, no storage read
(including the cursor metadata read) and no storage write happens. -/
theorem sync_config_error_before_io (a : SyncArgs) (env : Env) (w : World)
    (h : a.clientSome = false ∨ a.form_id = "") :
    sync_data a env w = ⟨w, [], Except.error SyncErr.config⟩ := by
  unfold sync_data
  rw [if_pos h]

/-- Witness for C8 at a concrete unconfigured platform. -/
theorem sync_config_error_before_io_witness :
    ({ exArgs with clientSome := false }.clientSome = false ∨
      { exArgs with clientSome := false }.form_id = "") ∧
    sync_data { exArgs with clientSome := false } exEnv exWorld =
      ⟨exWorld, [], Except.error SyncErr.config⟩ :=
  ⟨Or.inl rfl,
   sync_config_error_before_io { exArgs with clientSome := false } exEnv exWorld (Or.inl rfl)⟩

/-! ### C4 — behavior on a batch with zero records

The `if response_data:` guard at line 110 tests the truthiness of the
whole OData payload returned by `pyodk`'s `get_table`, which is a
dictionary containing at least the `value` key — truthy even when `value`
is the empty list. A fetch that returns zero records therefore passes the
guard, builds an empty DataFrame, and raises `KeyError` at line 130
(`df["__system/updatedAt"]` on a DataFrame with no columns) instead of
returning the empty list. Only a falsy response (`None`/`{}`), which the
client never produces, takes the early-return path. -/

/-- C4 evaluated at the failing input: a truthy response with zero records
makes `sync_data` raise (modelled `SyncErr.emptyFrame`) rather than return
the empty list, although the cursor is indeed left unchanged; by contrast
a falsy response — which the guard was presumably written for — returns
the empty list. -/
theorem sync_empty_batch_raises :
    (sync_data exArgs { exEnv with table := some [] } exWorld).result =
      Except.error SyncErr.emptyFrame ∧
    (sync_data exArgs { exEnv with table := some [] } exWorld).world = exWorld ∧
    (sync_data exArgs { exEnv with table := none } exWorld).result = Except.ok [] :=
  ⟨rfl, rfl, rfl⟩

/-! ### C5 — filter construction -/

/-- The timestamp condition starts with an opening parenthesis. -/
theorem timestampCond_head (c : String) :
    (timestampCond c).data.head? = some (Char.ofNat 40) := by
  simp only [timestampCond, String.data_append, List.append_assoc, List.head?_append]
  rfl

/-- The timestamp condition is never the empty string. -/
theorem timestampCond_ne_empty (c : String) : timestampCond c ≠ "" := by
  intro h
  have h2 : (timestampCond c).data.head? = (("" : String)).data.head? := by rw [h]
  rw [timestampCond_head c, show (("" : String)).data.head? = none from rfl] at h2
  exact Option.noConfusion h2

/-- The timestamp condition is never the rejection exclusion. -/
theorem timestampCond_ne_rejected (c : String) : timestampCond c ≠ REJECTED_COND := by
  intro h
  have h2 : (timestampCond c).data.head? = REJECTED_COND.data.head? := by rw [h]
  rw [timestampCond_head c,
      show REJECTED_COND.data.head? = some (Char.ofNat 95) from rfl] at h2
  exact absurd h2 (by decide)

/-- `String.intercalate` on no conditions. -/
theorem intercalate_and_nil : String.intercalate " and " [] = "" := rfl

/-- `String.intercalate` on a single condition. -/
theorem intercalate_and_single (x : String) : String.intercalate " and " [x] = x := rfl

/-- `String.intercalate` on two conditions. -/
theorem intercalate_and_pair (x y : String) :
    String.intercalate " and " [x, y] = x ++ " and " ++ y := rfl

/-- C5: the filter built by `sync_data` is the AND-combination of exactly
the conditions the spec lists — the timestamp condition is present exactly
when a (truthy) cursor was read from metadata, and the rejected-state
exclusion is present exactly when `include_rejected` is false; with no
cursor the filter is the rejection exclusion alone, or empty when both are
absent. -/
theorem buildFilter_conditions (cursor : Option String) (ir : Bool) :
    buildFilter cursor ir = String.intercalate " and " (filterConditionsSpec cursor ir) ∧
    ((∃ c, timestampCond c ∈ filterConditionsSpec cursor ir) ↔ truthyOptStr cursor = true) ∧
    (REJECTED_COND ∈ filterConditionsSpec cursor ir ↔ ir = false) := by
  obtain _ | c := cursor
  · cases ir <;>
      simp [buildFilter, filterConditionsSpec, truthyOptStr, intercalate_and_single,
            intercalate_and_nil, fun c => timestampCond_ne_rejected c]
  · by_cases hc : c = ""
    · subst hc
      cases ir <;>
        simp [buildFilter, filterConditionsSpec, truthyOptStr, intercalate_and_single,
              intercalate_and_nil, fun c => timestampCond_ne_rejected c]
    · cases ir
      · refine ⟨?_, ?_, ?_⟩
        · simp [buildFilter, filterConditionsSpec, truthyOptStr, hc,
                timestampCond_ne_empty c, intercalate_and_pair]
        · simp only [filterConditionsSpec, truthyOptStr, hc]
          simp [hc]
          exact ⟨c, Or.inl rfl⟩
        · simp [filterConditionsSpec, truthyOptStr, hc]
      · refine ⟨?_, ?_, ?_⟩
        · simp [buildFilter, filterConditionsSpec, truthyOptStr, hc, intercalate_and_single]
        · simp only [filterConditionsSpec, truthyOptStr, hc]
          simp [hc]
        · simp [filterConditionsSpec, truthyOptStr, hc,
                fun c => (timestampCond_ne_rejected c).symm]

/-! ### C6 — repeat-group column pruning -/

/-- Dropping the `__id` columns of each navigation column in turn filters
by the conjunction over all navigation columns. -/
theorem foldl_filter_ids (gs xs : List String) :
    gs.foldl (fun acc g => acc.filter (fun c => !(isRepeatIdCol g c))) xs
      = xs.filter (fun c => gs.all (fun g => !(isRepeatIdCol g c))) := by
  induction gs generalizing xs with
  | nil => simp
  | cons g gs ih =>
    rw [List.foldl_cons, ih, List.filter_filter]
    apply List.filter_congr
    intro c _
    simp [List.all_cons, Bool.and_comm]

/-- Helper: the pruning pass as a single filter. -/
theorem dropNavAndIds_eq_filter (cols : List String) :
    dropNavAndIds cols = cols.filter (fun c =>
      !(strEndsWith c REPEAT_GROUP_COLUMN_SUFFIX) &&
      !(cols.any (fun g => strEndsWith g REPEAT_GROUP_COLUMN_SUFFIX && isRepeatIdCol g c))) := by
  unfold dropNavAndIds
  rw [foldl_filter_ids, List.filter_filter]
  apply List.filter_congr
  intro c hc
  have hcont : (navColumns cols).contains c = strEndsWith c REPEAT_GROUP_COLUMN_SUFFIX := by
    rw [show (navColumns cols).contains c = List.elem c (navColumns cols) from rfl,
        List.elem_eq_mem]
    cases he : strEndsWith c REPEAT_GROUP_COLUMN_SUFFIX
    · simp only [decide_eq_false_iff_not]
      intro hmem
      rw [navColumns, List.mem_filter] at hmem
      rw [hmem.2] at he
      exact Bool.noConfusion he
    · simp only [decide_eq_true_eq]
      rw [navColumns, List.mem_filter]
      exact ⟨hc, he⟩
  have hany : (navColumns cols).any (fun g => isRepeatIdCol g c)
      = cols.any (fun g => strEndsWith g REPEAT_GROUP_COLUMN_SUFFIX && isRepeatIdCol g c) := by
    rw [navColumns, List.any_filter]
  rw [← List.not_any_eq_all_not, hany, hcont, Bool.and_comm]

/-- C6: pruning removes exactly the columns that end with the reserved
navigation-link suffix together with, for each such navigation column's
base path, the columns under that base path ending in `/__id`; every other
column is preserved, in its original order. -/
theorem dropNavAndIds_spec (cols : List String) :
    dropNavAndIds cols = cols.filter (fun c =>
      !(strEndsWith c REPEAT_GROUP_COLUMN_SUFFIX) &&
      !(cols.any (fun g => strEndsWith g REPEAT_GROUP_COLUMN_SUFFIX && isRepeatIdCol g c))) :=
  dropNavAndIds_eq_filter cols

/-! ### C9 — flattening joins paths with `/` and renames `__id` to `KEY` -/

/-- `String.intercalate` absorbs an explicitly joined head pair. -/
theorem intercalate_cons_cons (s a b : String) (l : List String) :
    String.intercalate s (a :: b :: l) = String.intercalate s ((a ++ s ++ b) :: l) := rfl

/-- Appending around a slash is never empty. -/
theorem append_slash_ne_empty (a b : String) : a ++ "/" ++ b ≠ "" := by
  intro h
  have h2 : (a ++ "/" ++ b).data = (("" : String)).data := by rw [h]
  rw [String.data_append, String.data_append] at h2
  have h3 : (("" : String)).data = [] := rfl
  rw [h3] at h2
  have h4 := List.append_eq_nil.mp h2
  have h5 := List.append_eq_nil.mp h4.1
  exact List.noConfusion h5.2

/-- Folding `joinKey` from a nonempty accumulated path is `/`-joining. -/
theorem foldl_joinKey_of_ne (l : List String) :
    ∀ a : String, a ≠ "" → l.foldl joinKey a = String.intercalate "/" (a :: l) := by
  induction l with
  | nil => intro a _; rfl
  | cons b l ih =>
    intro a ha
    rw [List.foldl_cons, show joinKey a b = a ++ "/" ++ b from if_neg ha,
        ih (a ++ "/" ++ b) (append_slash_ne_empty a b), intercalate_cons_cons]

/-- Folding `joinKey` from the empty root path is `/`-joining, provided
the first segment is nonempty. -/
theorem foldl_joinKey_root (segs : List String) (h : ∀ s ∈ segs, s ≠ "") :
    segs.foldl joinKey "" = String.intercalate "/" segs := by
  cases segs with
  | nil => rfl
  | cons s rest =>
    rw [List.foldl_cons, show joinKey "" s = s from if_pos rfl]
    exact foldl_joinKey_of_ne rest s (h s (List.mem_cons_self s rest))

mutual

/-- The flattener computes, for every leaf of `specLeaves`, the
`joinKey`-fold of its path segments onto the accumulated path. -/
theorem flattenAux_leaves (j : JValue) (key : String) :
    flattenAux j key = (specLeaves j).map (fun pv => (pv.1.foldl joinKey key, pv.2)) := by
  cases j with
  | obj kvs => rw [show flattenAux (JValue.obj kvs) key = flattenObj kvs key from rfl,
                   show specLeaves (JValue.obj kvs) = specLeavesObj kvs from rfl,
                   flattenObj_leaves kvs key]
  | arr xs => rw [show flattenAux (JValue.arr xs) key = flattenArr xs 0 key from rfl,
                  show specLeaves (JValue.arr xs) = specLeavesArr xs 0 from rfl,
                  flattenArr_leaves xs 0 key]
  | null => rfl
  | str v => rfl
  | int v => rfl
  | bool v => rfl

/-- Object worker of `flattenAux_leaves`. -/
theorem flattenObj_leaves (kvs : List (String × JValue)) (key : String) :
    flattenObj kvs key = (specLeavesObj kvs).map (fun pv => (pv.1.foldl joinKey key, pv.2)) := by
  match kvs with
  | [] => rfl
  | (k, v) :: rest =>
    rw [show flattenObj ((k, v) :: rest) key
          = flattenAux v (joinKey key k) ++ flattenObj rest key from rfl,
        show specLeavesObj ((k, v) :: rest)
          = (specLeaves v).map (fun pv => (k :: pv.1, pv.2)) ++ specLeavesObj rest from rfl,
        List.map_append, List.map_map,
        flattenAux_leaves v (joinKey key k), flattenObj_leaves rest key]
    rfl

/-- Sequence worker of `flattenAux_leaves`. -/
theorem flattenArr_leaves (xs : List JValue) (i : Nat) (key : String) :
    flattenArr xs i key
      = (specLeavesArr xs i).map (fun pv => (pv.1.foldl joinKey key, pv.2)) := by
  match xs with
  | [] => rfl
  | v :: rest =>
    rw [show flattenArr (v :: rest) i key
          = flattenAux v (joinKey key (toString i)) ++ flattenArr rest (i + 1) key from rfl,
        show specLeavesArr (v :: rest) i
          = (specLeaves v).map (fun pv => (toString i :: pv.1, pv.2))
            ++ specLeavesArr rest (i + 1) from rfl,
        List.map_append, List.map_map,
        flattenAux_leaves v (joinKey key (toString i)), flattenArr_leaves rest (i + 1) key]
    rfl

end

/-- C9: flattening a nested record produces exactly its leaves keyed by
their `/`-joined paths (sequence indices as segments), with the `__id`
field renamed to `KEY`; for a record without repeat-group navigation
columns the pruning pass then changes nothing. -/
theorem flatten_rename_spec (j : JValue)
    (hkeys : ∀ pv ∈ specLeaves j, ∀ s ∈ pv.1, s ≠ "")
    (hnonav : ∀ c ∈ (renameRecord (flattenRecord j)).map Prod.fst,
      strEndsWith c REPEAT_GROUP_COLUMN_SUFFIX = false) :
    renameRecord (flattenRecord j)
      = (specLeaves j).map (fun pv => (renameCol (String.intercalate "/" pv.1), pv.2)) ∧
    dropNavAndIds ((renameRecord (flattenRecord j)).map Prod.fst)
      = (renameRecord (flattenRecord j)).map Prod.fst := by
  constructor
  · rw [renameRecord, flattenRecord, flattenAux_leaves j "", List.map_map]
    apply List.map_congr_left
    intro pv hpv
    simp only [Function.comp]
    rw [foldl_joinKey_root pv.1 (hkeys pv hpv)]
  · rw [dropNavAndIds_eq_filter]
    apply List.filter_eq_self.mpr
    intro c hc
    rw [hnonav c hc]
    have hany : ((renameRecord (flattenRecord j)).map Prod.fst).any
        (fun g => strEndsWith g REPEAT_GROUP_COLUMN_SUFFIX && isRepeatIdCol g c) = false := by
      apply List.any_eq_false.mpr
      intro g hg
      rw [hnonav g hg]
      simp
    rw [hany]
    rfl

/-- A concrete nested record for the flattening witness (the spec §8
round-trip example, with the real API id field). -/
def exNested : JValue :=
  JValue.obj [("a", JValue.obj [("b", JValue.int 1)]), ("__id", JValue.str "x")]

/-- Witness for C9 at the concrete record
`\x7b"a": \x7b"b": 1\x7d, "__id": "x"\x7d`. -/
theorem flatten_rename_spec_witness :
    (∀ pv ∈ specLeaves exNested, ∀ s ∈ pv.1, s ≠ "") ∧
    (∀ c ∈ (renameRecord (flattenRecord exNested)).map Prod.fst,
      strEndsWith c REPEAT_GROUP_COLUMN_SUFFIX = false) ∧
    (renameRecord (flattenRecord exNested)
      = (specLeaves exNested).map (fun pv => (renameCol (String.intercalate "/" pv.1), pv.2)) ∧
    dropNavAndIds ((renameRecord (flattenRecord exNested)).map Prod.fst)
      = (renameRecord (flattenRecord exNested)).map Prod.fst) :=
  ⟨by decide, by decide, flatten_rename_spec exNested (by decide) (by decide)⟩

/-! ### Lemmas about the storage operations -/

/-- Storing a submission makes exactly its id (newly) present. -/
theorem query_storeSub_iff (s : StorageState) (id : String)
    (fs : List (String × JValue)) (x : String) :
    (s.storeSub id fs).query x = true ↔ (x = id ∨ s.query x = true) := by
  simp only [StorageState.storeSub, StorageState.query, List.any_cons,
    List.any_eq_true, List.mem_filter, Bool.or_eq_true, decide_eq_true_eq]
  constructor
  · rintro (h | ⟨kv, ⟨hmem, _⟩, hx⟩)
    · exact Or.inl h.symm
    · exact Or.inr ⟨kv, hmem, hx⟩
  · rintro (h | ⟨kv, hmem, hx⟩)
    · exact Or.inl h.symm
    · by_cases hxid : x = id
      · exact Or.inl hxid.symm
      · refine Or.inr ⟨kv, ⟨hmem, ?_⟩, hx⟩
        simp only [ne_eq, decide_eq_true_eq]
        rw [hx]
        exact hxid

/-- Storing an attachment leaves submissions, metadata and the timezone
flag of both storages unchanged. -/
theorem storeAtt_frame (w : World) (dest : AttDest) (id name : String) :
    (w.storeAtt dest id name).primary.subs = w.primary.subs ∧
    (w.storeAtt dest id name).primary.meta = w.primary.meta ∧
    (w.storeAtt dest id name).primary.tzUTC = w.primary.tzUTC := by
  cases dest <;> simp [World.storeAtt, StorageState.storeAttachment]

/-- Equal submission lists give equal query answers. -/
theorem query_congr {s1 s2 : StorageState} (h : s1.subs = s2.subs) (x : String) :
    s1.query x = s2.query x := by
  simp [StorageState.query, h]

/-! ### Frame and trace lemmas for the attachment loop -/

/-- The attachment loop only streams attachments: the written list, the
cursor candidate, and the primary storage's submissions, metadata and
timezone flag all pass through unchanged. -/
theorem attachLoop_frame (env : Env) (dest : AttDest) (subid : String)
    (ats : List (String × Bool)) (st : LoopSt) :
    (attachLoop env dest subid ats st).1.written = st.written ∧
    (attachLoop env dest subid ats st).1.newcursor = st.newcursor ∧
    (attachLoop env dest subid ats st).1.world.primary.subs = st.world.primary.subs ∧
    (attachLoop env dest subid ats st).1.world.primary.meta = st.world.primary.meta ∧
    (attachLoop env dest subid ats st).1.world.primary.tzUTC = st.world.primary.tzUTC := by
  induction ats generalizing st with
  | nil => exact ⟨rfl, rfl, rfl, rfl, rfl⟩
  | cons a rest ih =>
    obtain ⟨name, ex⟩ := a
    cases ex
    · simpa [attachLoop] using ih st
    · by_cases hb : env.attBytesOk subid name
      · have hf := storeAtt_frame st.world dest subid name
        have := ih { st with
          world := st.world.storeAtt dest subid name,
          trace := (st.trace ++ [Event.fetchAttachmentBytes subid name])
            ++ [Event.storeAttachment dest subid name] }
        simp only [attachLoop, hb, if_true] at *
        exact ⟨this.1, this.2.1, this.2.2.1.trans hf.1, this.2.2.2.1.trans hf.2.1,
               this.2.2.2.2.trans hf.2.2⟩
      · simp [attachLoop, hb]

/-- Every event the attachment loop appends is a byte fetch or an
attachment store for this submission. -/
theorem attachLoop_trace_mem (env : Env) (dest : AttDest) (subid : String)
    (ats : List (String × Bool)) (st : LoopSt) (ev : Event) :
    ev ∈ (attachLoop env dest subid ats st).1.trace →
    ev ∈ st.trace ∨ ∃ n, ev = Event.fetchAttachmentBytes subid n ∨
      ev = Event.storeAttachment dest subid n := by
  induction ats generalizing st with
  | nil => exact fun h => Or.inl h
  | cons a rest ih =>
    obtain ⟨name, ex⟩ := a
    cases ex
    · intro h
      simpa [attachLoop] using ih st (by simpa [attachLoop] using h)
    · by_cases hb : env.attBytesOk subid name
      · intro h
        rw [show attachLoop env dest subid ((name, true) :: rest) st
              = attachLoop env dest subid rest
                { st with world := st.world.storeAtt dest subid name,
                          trace := (st.trace ++ [Event.fetchAttachmentBytes subid name])
                            ++ [Event.storeAttachment dest subid name] } by
              simp [attachLoop, hb]] at h
        rcases ih _ h with hm | hnew
        · simp only [List.mem_append, List.mem_singleton] at hm
          rcases hm with (hm | hm) | hm
          · exact Or.inl hm
          · exact Or.inr ⟨name, Or.inl hm⟩
          · exact Or.inr ⟨name, Or.inr hm⟩
        · exact Or.inr hnew
      · intro h
        rw [show attachLoop env dest subid ((name, true) :: rest) st
              = ({ st with trace := st.trace ++ [Event.fetchAttachmentBytes subid name] },
                 some (SyncErr.transport subid name)) by simp [attachLoop, hb]] at h
        simp only [List.mem_append, List.mem_singleton] at h
        rcases h with h | h
        · exact Or.inl h
        · exact Or.inr ⟨name, Or.inl h⟩

/-! ### Frame and trace lemmas for the per-record write path -/

/-- The attachment phase passes the written list, the cursor candidate and
the primary submissions/metadata/timezone through unchanged. -/
theorem attachPhase_frame (env : Env) (dest : AttDest) (subid : String) (st : LoopSt) :
    (attachPhase env dest subid st).1.written = st.written ∧
    (attachPhase env dest subid st).1.newcursor = st.newcursor ∧
    (attachPhase env dest subid st).1.world.primary.subs = st.world.primary.subs ∧
    (attachPhase env dest subid st).1.world.primary.meta = st.world.primary.meta ∧
    (attachPhase env dest subid st).1.world.primary.tzUTC = st.world.primary.tzUTC := by
  unfold attachPhase
  exact attachLoop_frame env dest subid (env.attList subid)
    { st with trace := st.trace ++ [Event.fetchAttachmentList subid] }

/-- Shape of the write path: the cursor candidate and the primary
metadata/timezone are untouched; on success the record's id is appended to
the written list and becomes present in storage; on failure the written
list and the stored submissions are unchanged. -/
theorem storePhase_spec (env : Env) (dest : AttDest) (supp : Bool) (st : LoopSt) (r : Row) :
    (storePhase env dest supp st r).1.newcursor = st.newcursor ∧
    (storePhase env dest supp st r).1.world.primary.meta = st.world.primary.meta ∧
    (storePhase env dest supp st r).1.world.primary.tzUTC = st.world.primary.tzUTC ∧
    (((storePhase env dest supp st r).2 = none ∧
      (storePhase env dest supp st r).1.written = st.written ++ [r.key] ∧
      (∀ x, (storePhase env dest supp st r).1.world.primary.query x = true ↔
        (x = r.key ∨ st.world.primary.query x = true))) ∨
     ((storePhase env dest supp st r).2 ≠ none ∧
      (storePhase env dest supp st r).1.written = st.written ∧
      (∀ x, (storePhase env dest supp st r).1.world.primary.query x
        = st.world.primary.query x))) := by
  have main : ∀ st1 : LoopSt,
      st1.written = st.written → st1.newcursor = st.newcursor →
      st1.world.primary.subs = st.world.primary.subs →
      st1.world.primary.meta = st.world.primary.meta →
      st1.world.primary.tzUTC = st.world.primary.tzUTC →
      ∀ p : LoopSt × Option SyncErr,
      p = (if env.storeSubOk r.key then
            ({ st1 with world := st1.world.storeSubPrimary r.key r.fields,
                        trace := st1.trace ++ [Event.storeSubmission r.key],
                        written := st1.written ++ [r.key] }, none)
           else (st1, some (SyncErr.storage r.key))) →
      p.1.newcursor = st.newcursor ∧
      p.1.world.primary.meta = st.world.primary.meta ∧
      p.1.world.primary.tzUTC = st.world.primary.tzUTC ∧
      ((p.2 = none ∧ p.1.written = st.written ++ [r.key] ∧
        (∀ x, p.1.world.primary.query x = true ↔
          (x = r.key ∨ st.world.primary.query x = true))) ∨
       (p.2 ≠ none ∧ p.1.written = st.written ∧
        (∀ x, p.1.world.primary.query x = st.world.primary.query x))) := by
    intro st1 hw hn hs hm ht p hp
    by_cases hok : env.storeSubOk r.key
    · rw [if_pos hok] at hp
      subst hp
      refine ⟨hn, hm, ht, Or.inl ⟨rfl, by rw [hw], ?_⟩⟩
      intro x
      have h2 := query_storeSub_iff st1.world.primary r.key r.fields x
      rw [query_congr hs x] at h2
      exact h2
    · rw [if_neg hok] at hp
      subst hp
      exact ⟨hn, hm, ht, Or.inr ⟨by simp, hw, fun x => query_congr hs x⟩⟩
  by_cases hg : attachGuard dest supp r = true
  · rcases hap : attachPhase env dest r.key st with ⟨st1, e⟩
    have hfr := attachPhase_frame env dest r.key st
    rw [hap] at hfr
    cases e with
    | none =>
      have heq : storePhase env dest supp st r
          = (if env.storeSubOk r.key then
              ({ st1 with world := st1.world.storeSubPrimary r.key r.fields,
                          trace := st1.trace ++ [Event.storeSubmission r.key],
                          written := st1.written ++ [r.key] }, none)
             else (st1, some (SyncErr.storage r.key))) := by
        simp [storePhase, hg, hap]
      rw [heq]
      exact main st1 hfr.1 hfr.2.1 hfr.2.2.1 hfr.2.2.2.1 hfr.2.2.2.2 _ rfl
    | some err =>
      have heq : storePhase env dest supp st r = (st1, some err) := by
        simp [storePhase, hg, hap]
      rw [heq]
      exact ⟨hfr.2.1, hfr.2.2.2.1, hfr.2.2.2.2,
        Or.inr ⟨by simp, hfr.1, fun x => query_congr hfr.2.2.1 x⟩⟩
  · have heq : storePhase env dest supp st r
        = (if env.storeSubOk r.key then
            ({ st with world := st.world.storeSubPrimary r.key r.fields,
                       trace := st.trace ++ [Event.storeSubmission r.key],
                       written := st.written ++ [r.key] }, none)
           else (st, some (SyncErr.storage r.key))) := by
      simp [storePhase, hg]
    rw [heq]
    exact main st rfl rfl rfl rfl rfl _ rfl

/-- Every event the attachment phase appends is the list fetch, a byte
fetch or an attachment store for this submission. -/
theorem attachPhase_trace_mem (env : Env) (dest : AttDest) (subid : String)
    (st : LoopSt) (ev : Event) :
    ev ∈ (attachPhase env dest subid st).1.trace →
    ev ∈ st.trace ∨ ev = Event.fetchAttachmentList subid ∨
      ∃ n, ev = Event.fetchAttachmentBytes subid n ∨ ev = Event.storeAttachment dest subid n := by
  intro h
  unfold attachPhase at h
  rcases attachLoop_trace_mem env dest subid (env.attList subid) _ ev h with hm | hnew
  · simp only [List.mem_append, List.mem_singleton] at hm
    rcases hm with hm | hm
    · exact Or.inl hm
    · exact Or.inr (Or.inl hm)
  · exact Or.inr (Or.inr hnew)

/-- Every event the write path appends is an attachment event behind the
attachment guard, or the submission store itself — the latter only when
the write path succeeds. -/
theorem storePhase_trace_mem (env : Env) (dest : AttDest) (supp : Bool)
    (st : LoopSt) (r : Row) (ev : Event) :
    ev ∈ (storePhase env dest supp st r).1.trace →
    ev ∈ st.trace ∨
    (attachGuard dest supp r = true ∧
      (ev = Event.fetchAttachmentList r.key ∨
       ∃ n, ev = Event.fetchAttachmentBytes r.key n ∨ ev = Event.storeAttachment dest r.key n)) ∨
    (ev = Event.storeSubmission r.key ∧ (storePhase env dest supp st r).2 = none) := by
  have main : ∀ st1 : LoopSt,
      (ev ∈ st1.trace → ev ∈ st.trace ∨
        (attachGuard dest supp r = true ∧
          (ev = Event.fetchAttachmentList r.key ∨
           ∃ n, ev = Event.fetchAttachmentBytes r.key n ∨
             ev = Event.storeAttachment dest r.key n))) →
      ∀ p : LoopSt × Option SyncErr,
      p = (if env.storeSubOk r.key then
            ({ st1 with world := st1.world.storeSubPrimary r.key r.fields,
                        trace := st1.trace ++ [Event.storeSubmission r.key],
                        written := st1.written ++ [r.key] }, none)
           else (st1, some (SyncErr.storage r.key))) →
      ev ∈ p.1.trace →
      ev ∈ st.trace ∨
      (attachGuard dest supp r = true ∧
        (ev = Event.fetchAttachmentList r.key ∨
         ∃ n, ev = Event.fetchAttachmentBytes r.key n ∨
           ev = Event.storeAttachment dest r.key n)) ∨
      (ev = Event.storeSubmission r.key ∧ p.2 = none) := by
    intro st1 hbase p hp hev
    by_cases hok : env.storeSubOk r.key
    · rw [if_pos hok] at hp
      subst hp
      simp only [List.mem_append, List.mem_singleton] at hev
      rcases hev with hev | hev
      · rcases hbase hev with h | h
        · exact Or.inl h
        · exact Or.inr (Or.inl h)
      · exact Or.inr (Or.inr ⟨hev, rfl⟩)
    · rw [if_neg hok] at hp
      subst hp
      rcases hbase hev with h | h
      · exact Or.inl h
      · exact Or.inr (Or.inl h)
  by_cases hg : attachGuard dest supp r = true
  · rcases hap : attachPhase env dest r.key st with ⟨st1, e⟩
    have hbase : ev ∈ st1.trace → ev ∈ st.trace ∨
        (attachGuard dest supp r = true ∧
          (ev = Event.fetchAttachmentList r.key ∨
           ∃ n, ev = Event.fetchAttachmentBytes r.key n ∨
             ev = Event.storeAttachment dest r.key n)) := by
      intro h1
      have h2 := attachPhase_trace_mem env dest r.key st ev
      rw [hap] at h2
      rcases h2 h1 with h | h | h
      · exact Or.inl h
      · exact Or.inr ⟨hg, Or.inl h⟩
      · exact Or.inr ⟨hg, Or.inr h⟩
    cases e with
    | none =>
      have heq : storePhase env dest supp st r
          = (if env.storeSubOk r.key then
              ({ st1 with world := st1.world.storeSubPrimary r.key r.fields,
                          trace := st1.trace ++ [Event.storeSubmission r.key],
                          written := st1.written ++ [r.key] }, none)
             else (st1, some (SyncErr.storage r.key))) := by
        simp [storePhase, hg, hap]
      rw [heq]
      exact main st1 hbase _ rfl
    | some err =>
      have heq : storePhase env dest supp st r = (st1, some err) := by
        simp [storePhase, hg, hap]
      rw [heq]
      intro hev
      rcases hbase hev with h | h
      · exact Or.inl h
      · exact Or.inr (Or.inl h)
  · have heq : storePhase env dest supp st r
        = (if env.storeSubOk r.key then
            ({ st with world := st.world.storeSubPrimary r.key r.fields,
                       trace := st.trace ++ [Event.storeSubmission r.key],
                       written := st.written ++ [r.key] }, none)
           else (st, some (SyncErr.storage r.key))) := by
      simp [storePhase, hg]
    rw [heq]
    exact main st (fun h => Or.inl h) _ rfl

/-- Shape of the dedup decision: a record is skipped (no write, nothing
changed) exactly when its last-touched equals the pre-sync cursor and its
id is already present; otherwise the write path runs. -/
theorem dedupAndStore_spec (env : Env) (cursor : Option String) (dest : AttDest)
    (supp : Bool) (st : LoopSt) (r : Row) :
    (dedupAndStore env cursor dest supp st r).1.newcursor = st.newcursor ∧
    (dedupAndStore env cursor dest supp st r).1.world.primary.meta = st.world.primary.meta ∧
    (dedupAndStore env cursor dest supp st r).1.world.primary.tzUTC = st.world.primary.tzUTC ∧
    ((cursor = some (lastTouched r) ∧ st.world.primary.query r.key = true ∧
      (dedupAndStore env cursor dest supp st r).2 = none ∧
      (dedupAndStore env cursor dest supp st r).1.written = st.written ∧
      (∀ x, (dedupAndStore env cursor dest supp st r).1.world.primary.query x
        = st.world.primary.query x)) ∨
     (¬(cursor = some (lastTouched r) ∧ st.world.primary.query r.key = true) ∧
      (((dedupAndStore env cursor dest supp st r).2 = none ∧
        (dedupAndStore env cursor dest supp st r).1.written = st.written ++ [r.key] ∧
        (∀ x, (dedupAndStore env cursor dest supp st r).1.world.primary.query x = true ↔
          (x = r.key ∨ st.world.primary.query x = true))) ∨
       ((dedupAndStore env cursor dest supp st r).2 ≠ none ∧
        (dedupAndStore env cursor dest supp st r).1.written = st.written ∧
        (∀ x, (dedupAndStore env cursor dest supp st r).1.world.primary.query x
          = st.world.primary.query x))))) := by
  by_cases hcur : cursor = some (lastTouched r)
  · by_cases hq : st.world.primary.query r.key = true
    · have heq : dedupAndStore env cursor dest supp st r
          = ({ st with trace := st.trace ++ [Event.querySubmission r.key] }, none) := by
        simp [dedupAndStore, hcur, hq]
      rw [heq]
      exact ⟨rfl, rfl, rfl, Or.inl ⟨hcur, hq, rfl, rfl, fun _ => rfl⟩⟩
    · have heq : dedupAndStore env cursor dest supp st r
          = storePhase env dest supp
              { st with trace := st.trace ++ [Event.querySubmission r.key] } r := by
        simp [dedupAndStore, hcur, hq]
      rw [heq]
      have hsp := storePhase_spec env dest supp
        { st with trace := st.trace ++ [Event.querySubmission r.key] } r
      exact ⟨hsp.1, hsp.2.1, hsp.2.2.1, Or.inr ⟨fun hc => hq hc.2, hsp.2.2.2⟩⟩
  · have heq : dedupAndStore env cursor dest supp st r = storePhase env dest supp st r := by
      unfold dedupAndStore
      rw [if_neg hcur]
    rw [heq]
    have hsp := storePhase_spec env dest supp st r
    exact ⟨hsp.1, hsp.2.1, hsp.2.2.1, Or.inr ⟨fun hc => hcur hc.1, hsp.2.2.2⟩⟩

/-- Every event the dedup step appends is the existence check (only when
the last-touched matches the cursor), an attachment event behind the
guard, or the successful submission store. -/
theorem dedupAndStore_trace_mem (env : Env) (cursor : Option String) (dest : AttDest)
    (supp : Bool) (st : LoopSt) (r : Row) (ev : Event) :
    ev ∈ (dedupAndStore env cursor dest supp st r).1.trace →
    ev ∈ st.trace ∨
    (ev = Event.querySubmission r.key ∧ cursor = some (lastTouched r)) ∨
    (attachGuard dest supp r = true ∧
      (ev = Event.fetchAttachmentList r.key ∨
       ∃ n, ev = Event.fetchAttachmentBytes r.key n ∨ ev = Event.storeAttachment dest r.key n)) ∨
    (ev = Event.storeSubmission r.key ∧ (dedupAndStore env cursor dest supp st r).2 = none) := by
  by_cases hcur : cursor = some (lastTouched r)
  · by_cases hq : st.world.primary.query r.key = true
    · have heq : dedupAndStore env cursor dest supp st r
          = ({ st with trace := st.trace ++ [Event.querySubmission r.key] }, none) := by
        simp [dedupAndStore, hcur, hq]
      rw [heq]
      intro hev
      simp only [List.mem_append, List.mem_singleton] at hev
      rcases hev with hev | hev
      · exact Or.inl hev
      · exact Or.inr (Or.inl ⟨hev, hcur⟩)
    · have heq : dedupAndStore env cursor dest supp st r
          = storePhase env dest supp
              { st with trace := st.trace ++ [Event.querySubmission r.key] } r := by
        simp [dedupAndStore, hcur, hq]
      rw [heq]
      intro hev
      rcases storePhase_trace_mem env dest supp _ r ev hev with h | h | h
      · simp only [List.mem_append, List.mem_singleton] at h
        rcases h with h | h
        · exact Or.inl h
        · exact Or.inr (Or.inl ⟨h, hcur⟩)
      · exact Or.inr (Or.inr (Or.inl h))
      · exact Or.inr (Or.inr (Or.inr h))
  · have heq : dedupAndStore env cursor dest supp st r = storePhase env dest supp st r := by
      unfold dedupAndStore
      rw [if_neg hcur]
    rw [heq]
    intro hev
    rcases storePhase_trace_mem env dest supp st r ev hev with h | h | h
    · exact Or.inl h
    · exact Or.inr (Or.inr (Or.inl h))
    · exact Or.inr (Or.inr (Or.inr h))

/-- Updating the cursor candidate touches nothing but `newcursor`. -/
theorem updateCursorSt_fields (env : Env) (st : LoopSt) (r : Row) :
    (updateCursorSt env st r).world = st.world ∧
    (updateCursorSt env st r).trace = st.trace ∧
    (updateCursorSt env st r).written = st.written := by
  unfold updateCursorSt
  split <;> exact ⟨rfl, rfl, rfl⟩

/-- Lines 144–147 as an equation: the new cursor candidate after one
record. -/
theorem processRow_newcursor (env : Env) (cursor : Option String) (dest : AttDest)
    (supp : Bool) (st : LoopSt) (r : Row) :
    (processRow env cursor dest supp st r).1.newcursor
      = if env.parse (lastTouched r) > env.parse st.newcursor then lastTouched r
        else st.newcursor := by
  unfold processRow
  rw [(dedupAndStore_spec env cursor dest supp (updateCursorSt env st r) r).1]
  unfold updateCursorSt
  split <;> rfl

/-- Shape of one full record step (cursor update, dedup decision, write
path), relative to the incoming state. -/
theorem processRow_spec (env : Env) (cursor : Option String) (dest : AttDest)
    (supp : Bool) (st : LoopSt) (r : Row) :
    (processRow env cursor dest supp st r).1.world.primary.meta = st.world.primary.meta ∧
    (processRow env cursor dest supp st r).1.world.primary.tzUTC = st.world.primary.tzUTC ∧
    ((cursor = some (lastTouched r) ∧ st.world.primary.query r.key = true ∧
      (processRow env cursor dest supp st r).2 = none ∧
      (processRow env cursor dest supp st r).1.written = st.written ∧
      (∀ x, (processRow env cursor dest supp st r).1.world.primary.query x
        = st.world.primary.query x)) ∨
     (¬(cursor = some (lastTouched r) ∧ st.world.primary.query r.key = true) ∧
      (((processRow env cursor dest supp st r).2 = none ∧
        (processRow env cursor dest supp st r).1.written = st.written ++ [r.key] ∧
        (∀ x, (processRow env cursor dest supp st r).1.world.primary.query x = true ↔
          (x = r.key ∨ st.world.primary.query x = true))) ∨
       ((processRow env cursor dest supp st r).2 ≠ none ∧
        (processRow env cursor dest supp st r).1.written = st.written ∧
        (∀ x, (processRow env cursor dest supp st r).1.world.primary.query x
          = st.world.primary.query x))))) := by
  have hu := updateCursorSt_fields env st r
  have hd := dedupAndStore_spec env cursor dest supp (updateCursorSt env st r) r
  unfold processRow
  rw [hu.1, hu.2.2] at hd
  exact ⟨hd.2.1, hd.2.2.1, hd.2.2.2⟩

/-- Every event one record step appends is attributable to that record:
its existence check (only with a cursor match), its attachment events
(only behind the guard), or its successful store. -/
theorem processRow_trace_mem (env : Env) (cursor : Option String) (dest : AttDest)
    (supp : Bool) (st : LoopSt) (r : Row) (ev : Event) :
    ev ∈ (processRow env cursor dest supp st r).1.trace →
    ev ∈ st.trace ∨
    (ev = Event.querySubmission r.key ∧ cursor = some (lastTouched r)) ∨
    (attachGuard dest supp r = true ∧
      (ev = Event.fetchAttachmentList r.key ∨
       ∃ n, ev = Event.fetchAttachmentBytes r.key n ∨ ev = Event.storeAttachment dest r.key n)) ∨
    (ev = Event.storeSubmission r.key ∧ (processRow env cursor dest supp st r).2 = none) := by
  have hu := updateCursorSt_fields env st r
  have hd := dedupAndStore_trace_mem env cursor dest supp (updateCursorSt env st r) r ev
  unfold processRow
  rw [hu.2.1] at hd
  exact hd

/-! ### Lemmas about the whole loop -/

/-- Loop frame: the primary metadata and timezone flag are untouched by
the per-record loop, whether or not it raises. -/
theorem runRows_frame (env : Env) (cursor : Option String) (dest : AttDest) (supp : Bool)
    (rows : List Row) (st : LoopSt) :
    (runRows env cursor dest supp rows st).1.world.primary.meta = st.world.primary.meta ∧
    (runRows env cursor dest supp rows st).1.world.primary.tzUTC = st.world.primary.tzUTC := by
  induction rows generalizing st with
  | nil => exact ⟨rfl, rfl⟩
  | cons r rs ih =>
    have hp := processRow_spec env cursor dest supp st r
    rcases hpr : processRow env cursor dest supp st r with ⟨st1, e⟩
    rw [hpr] at hp
    cases e with
    | none =>
      have heq : runRows env cursor dest supp (r :: rs) st
          = runRows env cursor dest supp rs st1 := by
        rw [runRows, hpr]
      rw [heq]
      exact ⟨(ih st1).1.trans hp.1, (ih st1).2.trans hp.2.1⟩
    | some err =>
      have heq : runRows env cursor dest supp (r :: rs) st = (st1, some err) := by
        rw [runRows, hpr]
      rw [heq]
      exact ⟨hp.1, hp.2.1⟩

/-- Every event the loop appends is attributable to some record of the
batch. -/
theorem runRows_trace_mem (env : Env) (cursor : Option String) (dest : AttDest) (supp : Bool)
    (rows : List Row) (st : LoopSt) (ev : Event) :
    ev ∈ (runRows env cursor dest supp rows st).1.trace →
    ev ∈ st.trace ∨ ∃ r, r ∈ rows ∧
      ((ev = Event.querySubmission r.key ∧ cursor = some (lastTouched r)) ∨
       (attachGuard dest supp r = true ∧
         (ev = Event.fetchAttachmentList r.key ∨
          ∃ n, ev = Event.fetchAttachmentBytes r.key n ∨
            ev = Event.storeAttachment dest r.key n)) ∨
       ev = Event.storeSubmission r.key) := by
  induction rows generalizing st with
  | nil => exact fun h => Or.inl h
  | cons r rs ih =>
    intro hev
    rcases hpr : processRow env cursor dest supp st r with ⟨st1, e⟩
    have hstep := processRow_trace_mem env cursor dest supp st r ev
    rw [hpr] at hstep
    cases e with
    | none =>
      have heq : runRows env cursor dest supp (r :: rs) st
          = runRows env cursor dest supp rs st1 := by
        rw [runRows, hpr]
      rw [heq] at hev
      rcases ih st1 hev with h1 | ⟨r2, hr2, hsh⟩
      · rcases hstep h1 with h | h | h | h
        · exact Or.inl h
        · exact Or.inr ⟨r, List.mem_cons_self r rs, Or.inl h⟩
        · exact Or.inr ⟨r, List.mem_cons_self r rs, Or.inr (Or.inl h)⟩
        · exact Or.inr ⟨r, List.mem_cons_self r rs, Or.inr (Or.inr h.1)⟩
      · exact Or.inr ⟨r2, List.mem_cons_of_mem r hr2, hsh⟩
    | some err =>
      have heq : runRows env cursor dest supp (r :: rs) st = (st1, some err) := by
        rw [runRows, hpr]
      rw [heq] at hev
      rcases hstep hev with h | h | h | h
      · exact Or.inl h
      · exact Or.inr ⟨r, List.mem_cons_self r rs, Or.inl h⟩
      · exact Or.inr ⟨r, List.mem_cons_self r rs, Or.inr (Or.inl h)⟩
      · exact Or.inr ⟨r, List.mem_cons_self r rs, Or.inr (Or.inr h.1)⟩

/-- The attachment loop only appends to the trace. -/
theorem attachLoop_trace_append (env : Env) (dest : AttDest) (subid : String)
    (ats : List (String × Bool)) (st : LoopSt) :
    ∃ t, (attachLoop env dest subid ats st).1.trace = st.trace ++ t := by
  induction ats generalizing st with
  | nil => exact ⟨[], (List.append_nil _).symm⟩
  | cons a rest ih =>
    obtain ⟨name, ex⟩ := a
    cases ex
    · simpa [attachLoop] using ih st
    · by_cases hb : env.attBytesOk subid name
      · obtain ⟨t, ht⟩ := ih { st with
          world := st.world.storeAtt dest subid name,
          trace := (st.trace ++ [Event.fetchAttachmentBytes subid name])
            ++ [Event.storeAttachment dest subid name] }
        refine ⟨[Event.fetchAttachmentBytes subid name, Event.storeAttachment dest subid name]
          ++ t, ?_⟩
        rw [show attachLoop env dest subid ((name, true) :: rest) st
              = attachLoop env dest subid rest
                { st with world := st.world.storeAtt dest subid name,
                          trace := (st.trace ++ [Event.fetchAttachmentBytes subid name])
                            ++ [Event.storeAttachment dest subid name] } by
              simp [attachLoop, hb], ht]
        simp
      · refine ⟨[Event.fetchAttachmentBytes subid name], ?_⟩
        simp [attachLoop, hb]

/-- The write path only appends to the trace. -/
theorem storePhase_trace_append (env : Env) (dest : AttDest) (supp : Bool)
    (st : LoopSt) (r : Row) :
    ∃ t, (storePhase env dest supp st r).1.trace = st.trace ++ t := by
  have main : ∀ st1 : LoopSt, (∃ t0, st1.trace = st.trace ++ t0) →
      ∀ p : LoopSt × Option SyncErr,
      p = (if env.storeSubOk r.key then
            ({ st1 with world := st1.world.storeSubPrimary r.key r.fields,
                        trace := st1.trace ++ [Event.storeSubmission r.key],
                        written := st1.written ++ [r.key] }, none)
           else (st1, some (SyncErr.storage r.key))) →
      ∃ t, p.1.trace = st.trace ++ t := by
    intro st1 ⟨t0, ht0⟩ p hp
    by_cases hok : env.storeSubOk r.key
    · rw [if_pos hok] at hp
      subst hp
      exact ⟨t0 ++ [Event.storeSubmission r.key], by simp [ht0]⟩
    · rw [if_neg hok] at hp
      subst hp
      exact ⟨t0, ht0⟩
  by_cases hg : attachGuard dest supp r = true
  · rcases hap : attachPhase env dest r.key st with ⟨st1, e⟩
    have hbase : ∃ t0, st1.trace = st.trace ++ t0 := by
      obtain ⟨t, ht⟩ := attachLoop_trace_append env dest r.key (env.attList r.key)
        { st with trace := st.trace ++ [Event.fetchAttachmentList r.key] }
      rw [show attachLoop env dest r.key (env.attList r.key)
              { st with trace := st.trace ++ [Event.fetchAttachmentList r.key] }
            = (st1, e) from hap] at ht
      exact ⟨Event.fetchAttachmentList r.key :: t, by simpa using ht⟩
    cases e with
    | none =>
      have heq : storePhase env dest supp st r
          = (if env.storeSubOk r.key then
              ({ st1 with world := st1.world.storeSubPrimary r.key r.fields,
                          trace := st1.trace ++ [Event.storeSubmission r.key],
                          written := st1.written ++ [r.key] }, none)
             else (st1, some (SyncErr.storage r.key))) := by
        simp [storePhase, hg, hap]
      rw [heq]
      exact main st1 hbase _ rfl
    | some err =>
      have heq : storePhase env dest supp st r = (st1, some err) := by
        simp [storePhase, hg, hap]
      rw [heq]
      exact hbase
  · have heq : storePhase env dest supp st r
        = (if env.storeSubOk r.key then
            ({ st with world := st.world.storeSubPrimary r.key r.fields,
                       trace := st.trace ++ [Event.storeSubmission r.key],
                       written := st.written ++ [r.key] }, none)
           else (st, some (SyncErr.storage r.key))) := by
      simp [storePhase, hg]
    rw [heq]
    exact main st ⟨[], (List.append_nil _).symm⟩ _ rfl

/-- One record step only appends to the trace. -/
theorem processRow_trace_append (env : Env) (cursor : Option String) (dest : AttDest)
    (supp : Bool) (st : LoopSt) (r : Row) :
    ∃ t, (processRow env cursor dest supp st r).1.trace = st.trace ++ t := by
  have hu := updateCursorSt_fields env st r
  unfold processRow dedupAndStore
  by_cases hcur : cursor = some (lastTouched r)
  · rw [if_pos hcur]
    set st1 : LoopSt := { updateCursorSt env st r with
      trace := (updateCursorSt env st r).trace ++ [Event.querySubmission r.key] } with hst1
    by_cases hq : st1.world.primary.query r.key = true
    · rw [if_pos hq]
      exact ⟨[Event.querySubmission r.key], by rw [hst1]; simp [hu.2.1]⟩
    · rw [if_neg hq]
      obtain ⟨t, ht⟩ := storePhase_trace_append env dest supp st1 r
      refine ⟨Event.querySubmission r.key :: t, ?_⟩
      rw [ht, hst1]
      simp [hu.2.1]
  · rw [if_neg hcur]
    obtain ⟨t, ht⟩ := storePhase_trace_append env dest supp (updateCursorSt env st r) r
    rw [hu.2.1] at ht
    exact ⟨t, ht⟩

/-- The loop only appends to the trace. -/
theorem runRows_trace_append (env : Env) (cursor : Option String) (dest : AttDest)
    (supp : Bool) (rows : List Row) (st : LoopSt) :
    ∃ t, (runRows env cursor dest supp rows st).1.trace = st.trace ++ t := by
  induction rows generalizing st with
  | nil => exact ⟨[], (List.append_nil _).symm⟩
  | cons r rs ih =>
    rcases hpr : processRow env cursor dest supp st r with ⟨st1, e⟩
    have hstep := processRow_trace_append env cursor dest supp st r
    rw [hpr] at hstep
    obtain ⟨t0, ht0⟩ := hstep
    cases e with
    | none =>
      have heq : runRows env cursor dest supp (r :: rs) st
          = runRows env cursor dest supp rs st1 := by
        rw [runRows, hpr]
      obtain ⟨t1, ht1⟩ := ih st1
      exact ⟨t0 ++ t1, by rw [heq, ht1, ht0, List.append_assoc]⟩
    | some err =>
      have heq : runRows env cursor dest supp (r :: rs) st = (st1, some err) := by
        rw [runRows, hpr]
      exact ⟨t0, by rw [heq]; exact ht0⟩

/-- Events already in the trace survive the loop. -/
theorem runRows_trace_mono (env : Env) (cursor : Option String) (dest : AttDest)
    (supp : Bool) (rows : List Row) (st : LoopSt) (ev : Event) (h : ev ∈ st.trace) :
    ev ∈ (runRows env cursor dest supp rows st).1.trace := by
  obtain ⟨t, ht⟩ := runRows_trace_append env cursor dest supp rows st
  rw [ht]
  exact List.mem_append_left t h

/-- A successful write path emits the store event for its record. -/
theorem storePhase_store_event (env : Env) (dest : AttDest) (supp : Bool)
    (st : LoopSt) (r : Row) (h : (storePhase env dest supp st r).2 = none) :
    Event.storeSubmission r.key ∈ (storePhase env dest supp st r).1.trace := by
  have main : ∀ st1 : LoopSt,
      ∀ p : LoopSt × Option SyncErr,
      p = (if env.storeSubOk r.key then
            ({ st1 with world := st1.world.storeSubPrimary r.key r.fields,
                        trace := st1.trace ++ [Event.storeSubmission r.key],
                        written := st1.written ++ [r.key] }, none)
           else (st1, some (SyncErr.storage r.key))) →
      p.2 = none → Event.storeSubmission r.key ∈ p.1.trace := by
    intro st1 p hp hnone
    by_cases hok : env.storeSubOk r.key
    · rw [if_pos hok] at hp
      subst hp
      simp
    · rw [if_neg hok] at hp
      subst hp
      exact absurd hnone (by simp)
  by_cases hg : attachGuard dest supp r = true
  · rcases hap : attachPhase env dest r.key st with ⟨st1, e⟩
    cases e with
    | none =>
      have heq : storePhase env dest supp st r
          = (if env.storeSubOk r.key then
              ({ st1 with world := st1.world.storeSubPrimary r.key r.fields,
                          trace := st1.trace ++ [Event.storeSubmission r.key],
                          written := st1.written ++ [r.key] }, none)
             else (st1, some (SyncErr.storage r.key))) := by
        simp [storePhase, hg, hap]
      rw [heq] at h ⊢
      exact main st1 _ rfl h
    | some err =>
      have heq : storePhase env dest supp st r = (st1, some err) := by
        simp [storePhase, hg, hap]
      rw [heq] at h
      exact absurd h (by simp)
  · have heq : storePhase env dest supp st r
        = (if env.storeSubOk r.key then
            ({ st with world := st.world.storeSubPrimary r.key r.fields,
                       trace := st.trace ++ [Event.storeSubmission r.key],
                       written := st.written ++ [r.key] }, none)
           else (st, some (SyncErr.storage r.key))) := by
      simp [storePhase, hg]
    rw [heq] at h ⊢
    exact main st _ rfl h

/-- A successful non-skipped record step emits the store event for its
record. -/
theorem processRow_store_event (env : Env) (cursor : Option String) (dest : AttDest)
    (supp : Bool) (st : LoopSt) (r : Row)
    (hns : ¬(cursor = some (lastTouched r) ∧ st.world.primary.query r.key = true))
    (h : (processRow env cursor dest supp st r).2 = none) :
    Event.storeSubmission r.key ∈ (processRow env cursor dest supp st r).1.trace := by
  have hu := updateCursorSt_fields env st r
  unfold processRow dedupAndStore at h ⊢
  by_cases hcur : cursor = some (lastTouched r)
  · rw [if_pos hcur] at h ⊢
    set st1 : LoopSt := { updateCursorSt env st r with
      trace := (updateCursorSt env st r).trace ++ [Event.querySubmission r.key] } with hst1
    by_cases hq : st1.world.primary.query r.key = true
    · exact absurd ⟨hcur, by rw [hst1, show ({ updateCursorSt env st r with
        trace := (updateCursorSt env st r).trace ++ [Event.querySubmission r.key] }
          : LoopSt).world.primary.query r.key
        = (updateCursorSt env st r).world.primary.query r.key from rfl, hu.1] at hq; exact hq⟩ hns
    · rw [if_neg hq] at h ⊢
      exact storePhase_store_event env dest supp st1 r h
  · rw [if_neg hcur] at h ⊢
    exact storePhase_store_event env dest supp (updateCursorSt env st r) r h

/-- `initNewCursor` agrees with `lastTouched` (lines 130–132 compute the
last row's last-touched value). -/
theorem initNewCursor_eq_lastTouched (r : Row) : initNewCursor r = lastTouched r := rfl

/-- Through a successful loop, the cursor candidate only grows, bounds the
last-touched instant of every processed record, and is either the starting
candidate or a last-touched value of the batch. -/
theorem runRows_newcursor (env : Env) (cursor : Option String) (dest : AttDest)
    (supp : Bool) (rows : List Row) (st : LoopSt)
    (hok : (runRows env cursor dest supp rows st).2 = none) :
    env.parse st.newcursor ≤ env.parse (runRows env cursor dest supp rows st).1.newcursor ∧
    (∀ r ∈ rows, env.parse (lastTouched r)
      ≤ env.parse (runRows env cursor dest supp rows st).1.newcursor) ∧
    ((runRows env cursor dest supp rows st).1.newcursor = st.newcursor ∨
      ∃ r, r ∈ rows ∧ (runRows env cursor dest supp rows st).1.newcursor = lastTouched r) := by
  induction rows generalizing st with
  | nil => exact ⟨le_refl _, fun r hr => absurd hr (List.not_mem_nil r), Or.inl rfl⟩
  | cons r rs ih =>
    rcases hpr : processRow env cursor dest supp st r with ⟨st1, e⟩
    have hnc := processRow_newcursor env cursor dest supp st r
    rw [hpr] at hnc
    cases e with
    | none =>
      have heq : runRows env cursor dest supp (r :: rs) st
          = runRows env cursor dest supp rs st1 := by
        rw [runRows, hpr]
      rw [heq] at hok ⊢
      obtain ⟨h1, h2, h3⟩ := ih st1 hok
      have hst1le : env.parse st.newcursor ≤ env.parse st1.newcursor := by
        rw [hnc]
        split
        · exact le_of_lt (by assumption)
        · exact le_refl _
      have hrle : env.parse (lastTouched r) ≤ env.parse st1.newcursor := by
        rw [hnc]
        split
        · exact le_refl _
        · exact le_of_not_lt (by assumption)
      refine ⟨le_trans hst1le h1, ?_, ?_⟩
      · intro r2 hr2
        rcases List.mem_cons.mp hr2 with hr2 | hr2
        · rw [hr2]
          exact le_trans hrle h1
        · exact h2 r2 hr2
      · rcases h3 with h3 | ⟨r2, hr2, h3⟩
        · rw [h3, hnc]
          split
          · exact Or.inr ⟨r, List.mem_cons_self r rs, rfl⟩
          · exact Or.inl rfl
        · exact Or.inr ⟨r2, List.mem_cons_of_mem r hr2, h3⟩
    | some err =>
      have heq : runRows env cursor dest supp (r :: rs) st = (st1, some err) := by
        rw [runRows, hpr]
      rw [heq] at hok
      exact absurd hok (by simp)

/-- `query_submission` answers membership in the stored id set. -/
theorem query_iff_mem_keys (s : StorageState) (x : String) :
    s.query x = true ↔ x ∈ s.subs.map Prod.fst := by
  simp only [StorageState.query, List.any_eq_true, List.mem_map, decide_eq_true_eq]

/-- Simulation of a successful loop by the spec-side dedup recursion: the
written list accumulates exactly `writtenIdsSpec`, and each written id has
its store event in the trace. -/
theorem runRows_sim (env : Env) (cursor : Option String) (dest : AttDest) (supp : Bool)
    (rows : List Row) :
    ∀ (st : LoopSt) (present : List String),
    (∀ x, st.world.primary.query x = true ↔ x ∈ present) →
    (runRows env cursor dest supp rows st).2 = none →
    (runRows env cursor dest supp rows st).1.written
      = st.written ++ writtenIdsSpec cursor present rows ∧
    (∀ id ∈ writtenIdsSpec cursor present rows,
      Event.storeSubmission id ∈ (runRows env cursor dest supp rows st).1.trace) := by
  induction rows with
  | nil =>
    intro st present _ _
    exact ⟨by simp [runRows, writtenIdsSpec], by simp [writtenIdsSpec]⟩
  | cons r rs ih =>
    intro st present hinv hok
    rcases hpr : processRow env cursor dest supp st r with ⟨st1, e⟩
    have hp := processRow_spec env cursor dest supp st r
    rw [hpr] at hp
    cases e with
    | some err =>
      have heq : runRows env cursor dest supp (r :: rs) st = (st1, some err) := by
        rw [runRows, hpr]
      rw [heq] at hok
      exact absurd hok (by simp)
    | none =>
      have heq : runRows env cursor dest supp (r :: rs) st
          = runRows env cursor dest supp rs st1 := by
        rw [runRows, hpr]
      rw [heq] at hok ⊢
      rcases hp.2.2 with ⟨hc1, hc2, _, hw, hq⟩ | ⟨hns, hwr⟩
      · -- skipped record
        have hifpos : cursor = some (lastTouched r) ∧ r.key ∈ present :=
          ⟨hc1, (hinv r.key).mp hc2⟩
        have hids : writtenIdsSpec cursor present (r :: rs)
            = writtenIdsSpec cursor present rs := by
          rw [writtenIdsSpec, if_pos hifpos]
        have hinv1 : ∀ x, st1.world.primary.query x = true ↔ x ∈ present := by
          intro x
          rw [hq x]
          exact hinv x
        obtain ⟨ihw, iht⟩ := ih st1 present hinv1 hok
        rw [hids, ihw, hw]
        exact ⟨rfl, iht⟩
      · rcases hwr with ⟨_, hw, hq⟩ | ⟨hne, _, _⟩
        · -- written record
          have hifneg : ¬(cursor = some (lastTouched r) ∧ r.key ∈ present) := by
            intro hc
            exact hns ⟨hc.1, (hinv r.key).mpr hc.2⟩
          have hids : writtenIdsSpec cursor present (r :: rs)
              = r.key :: writtenIdsSpec cursor (r.key :: present) rs := by
            rw [writtenIdsSpec, if_neg hifneg]
          have hinv1 : ∀ x, st1.world.primary.query x = true ↔ x ∈ r.key :: present := by
            intro x
            rw [hq x, List.mem_cons]
            exact or_congr Iff.rfl (hinv x)
          obtain ⟨ihw, iht⟩ := ih st1 (r.key :: present) hinv1 hok
          have hev : Event.storeSubmission r.key ∈ st1.trace := by
            have := processRow_store_event env cursor dest supp st r hns
            rw [hpr] at this
            exact this rfl
          refine ⟨?_, ?_⟩
          · rw [hids, ihw, hw, List.append_assoc]
            rfl
          · intro id hid
            rw [hids] at hid
            rcases List.mem_cons.mp hid with hid | hid
            · rw [hid]
              exact runRows_trace_mono env cursor dest supp rs st1 _ hev
            · exact iht id hid
        · exact absurd rfl hne

/-- Any id whose store event is in the trace stays present in primary
storage, across one record step. -/
theorem processRow_stored_inv (env : Env) (cursor : Option String) (dest : AttDest)
    (supp : Bool) (st : LoopSt) (r : Row)
    (hinv : ∀ id, Event.storeSubmission id ∈ st.trace → st.world.primary.query id = true) :
    ∀ id, Event.storeSubmission id ∈ (processRow env cursor dest supp st r).1.trace →
      (processRow env cursor dest supp st r).1.world.primary.query id = true := by
  intro id hev
  have hp := processRow_spec env cursor dest supp st r
  have hmono : st.world.primary.query id = true →
      (processRow env cursor dest supp st r).1.world.primary.query id = true := by
    intro hq
    rcases hp.2.2 with ⟨_, _, _, _, hqq⟩ | ⟨_, hwr⟩
    · rw [hqq id]
      exact hq
    · rcases hwr with ⟨_, _, hqq⟩ | ⟨_, _, hqq⟩
      · exact (hqq id).mpr (Or.inr hq)
      · rw [hqq id]
        exact hq
  rcases processRow_trace_mem env cursor dest supp st r _ hev with h | ⟨h, _⟩ | ⟨_, hsh⟩ | ⟨h, hnone⟩
  · exact hmono (hinv id h)
  · exact Event.noConfusion h
  · rcases hsh with h | ⟨n, h | h⟩ <;> exact Event.noConfusion h
  · have hid : id = r.key := by
      injection h
    subst hid
    rcases hp.2.2 with ⟨_, hq2, _, _, hqq⟩ | ⟨_, hwr⟩
    · rw [hqq r.key]
      exact hq2
    · rcases hwr with ⟨_, _, hqq⟩ | ⟨hne, _, _⟩
      · exact (hqq r.key).mpr (Or.inl rfl)
      · exact absurd hnone hne

/-- Any id whose store event is in the trace stays present in primary
storage, across the whole loop, raising or not. -/
theorem runRows_stored_inv (env : Env) (cursor : Option String) (dest : AttDest)
    (supp : Bool) (rows : List Row) :
    ∀ st : LoopSt,
    (∀ id, Event.storeSubmission id ∈ st.trace → st.world.primary.query id = true) →
    ∀ id, Event.storeSubmission id ∈ (runRows env cursor dest supp rows st).1.trace →
      (runRows env cursor dest supp rows st).1.world.primary.query id = true := by
  induction rows with
  | nil => exact fun st hinv => hinv
  | cons r rs ih =>
    intro st hinv id hev
    rcases hpr : processRow env cursor dest supp st r with ⟨st1, e⟩
    have hstep := processRow_stored_inv env cursor dest supp st r hinv
    rw [hpr] at hstep
    cases e with
    | none =>
      have heq : runRows env cursor dest supp (r :: rs) st
          = runRows env cursor dest supp rs st1 := by
        rw [runRows, hpr]
      rw [heq] at hev ⊢
      exact ih st1 hstep id hev
    | some err =>
      have heq : runRows env cursor dest supp (r :: rs) st = (st1, some err) := by
        rw [runRows, hpr]
      rw [heq] at hev ⊢
      exact hstep id hev

/-- A record whose last-touched value differs from the cursor always lands
in the spec-side written list. -/
theorem writtenIdsSpec_mem (cursor : Option String) (r : Row)
    (hne : cursor ≠ some (lastTouched r)) :
    ∀ (rows : List Row) (present : List String), r ∈ rows →
      r.key ∈ writtenIdsSpec cursor present rows := by
  intro rows
  induction rows with
  | nil => intro present h; exact absurd h (List.not_mem_nil r)
  | cons r2 rs ih =>
    intro present hmem
    unfold writtenIdsSpec
    rcases List.mem_cons.mp hmem with hmem | hmem
    · subst hmem
      rw [if_neg (fun hc => hne hc.1)]
      exact List.mem_cons_self _ _
    · split
      · exact ih present hmem
      · exact List.mem_cons_of_mem _ (ih (r2.key :: present) hmem)

/-! ### Lemmas connecting `sync_data` to the loop -/

/-- With a configured platform, `sync_data` is its core. -/
theorem sync_data_configOk (a : SyncArgs) (env : Env) (w : World)
    (hcl : a.clientSome = true) (hf : a.form_id ≠ "") :
    sync_data a env w = syncCore a env w := by
  unfold sync_data
  rw [if_neg]
  rintro (h | h)
  · rw [hcl] at h
    exact Bool.noConfusion h
  · exact hf h

/-- The core on a non-empty batch is the loop followed by the cursor
epilogue. -/
theorem syncCore_batch (a : SyncArgs) (env : Env) (w : World) (r0 : Row) (rs : List Row)
    (ht : env.table = some (r0 :: rs)) :
    syncCore a env w
      = finishBatch (w.primary.getMetadata CURSOR_METADATA_ID)
          (runBatch env (w.primary.getMetadata CURSOR_METADATA_ID)
            (resolveDest a.no_attachments a.separateProvided) (destSupportedFlag a)
            r0 rs w (syncTrace0 a w)).1
          (runBatch env (w.primary.getMetadata CURSOR_METADATA_ID)
            (resolveDest a.no_attachments a.separateProvided) (destSupportedFlag a)
            r0 rs w (syncTrace0 a w)).2 := by
  unfold syncCore
  rw [ht]

/-- The epilogue on a clean loop, as an `if`. -/
theorem finishBatch_none (cursor : Option String) (st : LoopSt) :
    finishBatch cursor st none
      = if cursor = some st.newcursor then ⟨st.world, st.trace, Except.ok st.written⟩
        else ⟨{ st.world with primary :=
                  (st.world.primary.storeMeta CURSOR_METADATA_ID st.newcursor).setTzUTC },
              st.trace ++ [Event.storeMetadata CURSOR_METADATA_ID st.newcursor,
                           Event.setDataTimezoneUTC],
              Except.ok st.written⟩ := rfl

/-- The epilogue on a raised error re-raises it. -/
theorem finishBatch_some (cursor : Option String) (st : LoopSt) (err : SyncErr) :
    finishBatch cursor st (some err) = ⟨st.world, st.trace, Except.error err⟩ := rfl

/-- The epilogue returns a list exactly when the loop raised nothing, and
then returns the accumulated written list. -/
theorem finishBatch_result_ok (cursor : Option String) (st : LoopSt) (e : Option SyncErr)
    (l : List String) :
    (finishBatch cursor st e).result = Except.ok l ↔ (e = none ∧ l = st.written) := by
  cases e with
  | none =>
    rw [finishBatch_none]
    split <;> simp [eq_comm]
  | some err =>
    rw [finishBatch_some]
    simp

/-- The epilogue only appends to the trace. -/
theorem finishBatch_trace_mono (cursor : Option String) (st : LoopSt) (e : Option SyncErr)
    (ev : Event) (h : ev ∈ st.trace) : ev ∈ (finishBatch cursor st e).trace := by
  cases e with
  | none =>
    rw [finishBatch_none]
    split
    · exact h
    · exact List.mem_append_left _ h
  | some err => exact h

/-- Every event of the epilogue's trace is a loop event, the cursor
metadata store, or the timezone tagging. -/
theorem finishBatch_trace_mem_rev (cursor : Option String) (st : LoopSt)
    (e : Option SyncErr) (ev : Event) :
    ev ∈ (finishBatch cursor st e).trace →
    ev ∈ st.trace ∨ (∃ v, ev = Event.storeMetadata CURSOR_METADATA_ID v) ∨
      ev = Event.setDataTimezoneUTC := by
  cases e with
  | none =>
    rw [finishBatch_none]
    split
    · exact fun h => Or.inl h
    · intro h
      rcases List.mem_append.mp h with h | h
      · exact Or.inl h
      · rcases List.mem_cons.mp h with h | h
        · exact Or.inr (Or.inl ⟨st.newcursor, h⟩)
        · rcases List.mem_singleton.mp h with h
          exact Or.inr (Or.inr h)
  | some err => exact fun h => Or.inl h

/-- The loop over a batch, started from empty written state, writes
exactly the ids of `writtenIdsSpec` relative to the initially present ids,
and each of them has its store event in the trace. -/
theorem runBatch_sim (env : Env) (cursor : Option String) (dest : AttDest) (supp : Bool)
    (r0 : Row) (rs : List Row) (w : World) (tr : List Event)
    (hok : (runBatch env cursor dest supp r0 rs w tr).2 = none) :
    (runBatch env cursor dest supp r0 rs w tr).1.written
      = writtenIdsSpec cursor (w.primary.subs.map Prod.fst) (r0 :: rs) ∧
    ∀ id ∈ (runBatch env cursor dest supp r0 rs w tr).1.written,
      Event.storeSubmission id ∈ (runBatch env cursor dest supp r0 rs w tr).1.trace := by
  unfold runBatch at hok ⊢
  obtain ⟨hw, hevs⟩ := runRows_sim env cursor dest supp (r0 :: rs)
    ⟨w, tr, [], initNewCursor (rs.getLastD r0)⟩ (w.primary.subs.map Prod.fst)
    (fun x => query_iff_mem_keys w.primary x) hok
  rw [show (⟨w, tr, [], initNewCursor (rs.getLastD r0)⟩ : LoopSt).written = [] from rfl,
      List.nil_append] at hw
  exact ⟨hw, fun id hid => hevs id (hw ▸ hid)⟩

/-- The loop leaves the primary metadata and timezone flag unchanged. -/
theorem runBatch_frame (env : Env) (cursor : Option String) (dest : AttDest) (supp : Bool)
    (r0 : Row) (rs : List Row) (w : World) (tr : List Event) :
    (runBatch env cursor dest supp r0 rs w tr).1.world.primary.meta = w.primary.meta ∧
    (runBatch env cursor dest supp r0 rs w tr).1.world.primary.tzUTC = w.primary.tzUTC :=
  runRows_frame env cursor dest supp (r0 :: rs) ⟨w, tr, [], initNewCursor (rs.getLastD r0)⟩

/-- Equal metadata gives equal metadata reads. -/
theorem getMetadata_congr {s1 s2 : StorageState} (h : s1.meta = s2.meta) (k : String) :
    s1.getMetadata k = s2.getMetadata k := by
  simp [StorageState.getMetadata, h]

/-- Every event of the loop's trace is an initial event or attributable to
a record of the batch. -/
theorem runBatch_trace_mem (env : Env) (cursor : Option String) (dest : AttDest) (supp : Bool)
    (r0 : Row) (rs : List Row) (w : World) (tr : List Event) (ev : Event) :
    ev ∈ (runBatch env cursor dest supp r0 rs w tr).1.trace →
    ev ∈ tr ∨ ∃ r, r ∈ r0 :: rs ∧
      ((ev = Event.querySubmission r.key ∧ cursor = some (lastTouched r)) ∨
       (attachGuard dest supp r = true ∧
         (ev = Event.fetchAttachmentList r.key ∨
          ∃ n, ev = Event.fetchAttachmentBytes r.key n ∨
            ev = Event.storeAttachment dest r.key n)) ∨
       ev = Event.storeSubmission r.key) :=
  runRows_trace_mem env cursor dest supp (r0 :: rs)
    ⟨w, tr, [], initNewCursor (rs.getLastD r0)⟩ ev

/-- If the initial trace holds no store events, every id whose store event
the loop emitted is present in primary storage afterwards. -/
theorem runBatch_stored_inv (env : Env) (cursor : Option String) (dest : AttDest)
    (supp : Bool) (r0 : Row) (rs : List Row) (w : World) (tr : List Event)
    (htr : ∀ id, Event.storeSubmission id ∉ tr) :
    ∀ id, Event.storeSubmission id ∈ (runBatch env cursor dest supp r0 rs w tr).1.trace →
      (runBatch env cursor dest supp r0 rs w tr).1.world.primary.query id = true :=
  runRows_stored_inv env cursor dest supp (r0 :: rs)
    ⟨w, tr, [], initNewCursor (rs.getLastD r0)⟩
    (fun id h => absurd h (htr id))

/-- The initial trace holds neither store, metadata, timezone, query nor
attachment events. -/
theorem syncTrace0_mem (a : SyncArgs) (w : World) (ev : Event)
    (h : ev ∈ syncTrace0 a w) :
    ev = Event.getMetadata CURSOR_METADATA_ID ∨
    ev = Event.fetchTable a.form_id
      (buildFilter (w.primary.getMetadata CURSOR_METADATA_ID) a.include_rejected) := by
  rcases List.mem_cons.mp h with h | h
  · exact Or.inl h
  · exact Or.inr (List.mem_singleton.mp h)

/-- Membership of the attachment guard: it only passes with attachments
enabled, a supporting destination and a positive attachment count. -/
theorem attachGuard_conditions (a : SyncArgs) (r : Row)
    (h : attachGuard (resolveDest a.no_attachments a.separateProvided)
          (destSupportedFlag a) r = true) :
    a.no_attachments = false ∧ destSupportedFlag a = true ∧ r.attachmentsPresent > 0 := by
  unfold attachGuard at h
  rw [Bool.and_eq_true, Bool.and_eq_true] at h
  obtain ⟨⟨h1, h2⟩, h3⟩ := h
  refine ⟨?_, h2, of_decide_eq_true h3⟩
  cases hna : a.no_attachments
  · rfl
  · rw [show resolveDest a.no_attachments a.separateProvided = AttDest.noStore by
        simp [resolveDest, hna]] at h1
    simp at h1

/-- Every event of a whole `sync_data` run is one of the two initial
calls, the cursor epilogue, or attributable to a record of the fetched
batch. -/
theorem sync_trace_mem (a : SyncArgs) (env : Env) (w : World) (ev : Event)
    (h : ev ∈ (sync_data a env w).trace) :
    ev ∈ syncTrace0 a w ∨
    (∃ v, ev = Event.storeMetadata CURSOR_METADATA_ID v) ∨ ev = Event.setDataTimezoneUTC ∨
    ∃ rows r, env.table = some rows ∧ r ∈ rows ∧
      ((ev = Event.querySubmission r.key ∧
         w.primary.getMetadata CURSOR_METADATA_ID = some (lastTouched r)) ∨
       (attachGuard (resolveDest a.no_attachments a.separateProvided)
          (destSupportedFlag a) r = true ∧
         (ev = Event.fetchAttachmentList r.key ∨
          ∃ n, ev = Event.fetchAttachmentBytes r.key n ∨
            ev = Event.storeAttachment
              (resolveDest a.no_attachments a.separateProvided) r.key n)) ∨
       ev = Event.storeSubmission r.key) := by
  unfold sync_data at h
  by_cases hc : a.clientSome = false ∨ a.form_id = ""
  · rw [if_pos hc] at h
    exact absurd h (List.not_mem_nil ev)
  · rw [if_neg hc] at h
    unfold syncCore at h
    rcases htab : env.table with _ | rows
    · rw [htab] at h
      exact Or.inl h
    · rcases rows with _ | ⟨r0, rs⟩
      · rw [htab] at h
        exact Or.inl h
      · rw [htab] at h
        rcases finishBatch_trace_mem_rev _ _ _ ev h with h1 | h1 | h1
        · rcases runBatch_trace_mem env _ _ _ r0 rs w _ ev h1 with h2 | ⟨r, hr, hsh⟩
          · exact Or.inl h2
          · exact Or.inr (Or.inr (Or.inr ⟨r0 :: rs, r, rfl, hr, hsh⟩))
        · exact Or.inr (Or.inl h1)
        · exact Or.inr (Or.inr (Or.inl h1))

/-! ### C1 — dedup rule and returned list -/

/-- C1: on a non-empty fetched batch, a successful `sync_data` returns
exactly the ids of `writtenIdsSpec` — each record is skipped precisely
when its last-touched equals the pre-sync cursor and its id is already
present (counting writes made earlier in the cycle), every other record is
written, in the platform's order — and every returned id has its
`store_submission` event in the trace. -/
theorem sync_written_iff_dedup (a : SyncArgs) (env : Env) (w : World)
    (r0 : Row) (rs : List Row)
    (hcl : a.clientSome = true) (hf : a.form_id ≠ "") (ht : env.table = some (r0 :: rs))
    (l : List String) (hok : (sync_data a env w).result = Except.ok l) :
    l = writtenIdsSpec (w.primary.getMetadata CURSOR_METADATA_ID)
          (w.primary.subs.map Prod.fst) (r0 :: rs) ∧
    ∀ id ∈ l, Event.storeSubmission id ∈ (sync_data a env w).trace := by
  rw [sync_data_configOk a env w hcl hf, syncCore_batch a env w r0 rs ht] at hok ⊢
  obtain ⟨he, hl⟩ := (finishBatch_result_ok _ _ _ l).mp hok
  obtain ⟨hw, hevs⟩ := runBatch_sim env _ _ _ r0 rs w _ he
  refine ⟨hl.trans hw, ?_⟩
  intro id hid
  apply finishBatch_trace_mono
  exact hevs id (hl ▸ hid)

/-- Witness for C1: configured sync over the three-record fixture batch
against empty storage writes and returns all three ids in order. -/
theorem sync_written_iff_dedup_witness :
    exArgs.clientSome = true ∧ exArgs.form_id ≠ "" ∧
    exEnv.table = some [exRow1, exRow2, exRow3] ∧
    (sync_data exArgs exEnv exWorld).result = Except.ok ["s1", "s2", "s3"] ∧
    (["s1", "s2", "s3"]
      = writtenIdsSpec (exWorld.primary.getMetadata CURSOR_METADATA_ID)
          (exWorld.primary.subs.map Prod.fst) [exRow1, exRow2, exRow3] ∧
    ∀ id ∈ ["s1", "s2", "s3"],
      Event.storeSubmission id ∈ (sync_data exArgs exEnv exWorld).trace) :=
  ⟨rfl, by decide, rfl, rfl,
   sync_written_iff_dedup exArgs exEnv exWorld exRow1 [exRow2, exRow3]
     rfl (by decide) rfl ["s1", "s2", "s3"] rfl⟩

/-! ### C2 — cursor candidate is the batch maximum -/

/-- C2: when the loop of `sync_data` completes, its cursor candidate is
the last-touched value (updated-at, falling back to submission-date) of a
record of the batch whose parsed instant is maximal over the whole batch —
not necessarily the last record processed. -/
theorem sync_cursor_candidate_max (env : Env) (cursor : Option String) (dest : AttDest)
    (supp : Bool) (r0 : Row) (rs : List Row) (w : World) (tr : List Event)
    (hok : (runBatch env cursor dest supp r0 rs w tr).2 = none) :
    ∃ r, r ∈ r0 :: rs ∧
      (runBatch env cursor dest supp r0 rs w tr).1.newcursor = lastTouched r ∧
      ∀ r2 ∈ r0 :: rs, env.parse (lastTouched r2) ≤ env.parse (lastTouched r) := by
  unfold runBatch at hok ⊢
  obtain ⟨h1, h2, h3⟩ := runRows_newcursor env cursor dest supp (r0 :: rs) _ hok
  rcases h3 with h3 | ⟨r, hr, h3⟩
  · refine ⟨rs.getLastD r0, List.getLastD_mem_cons rs r0, ?_, ?_⟩
    · rw [h3]
      rfl
    · intro r2 hr2
      have hb := h2 r2 hr2
      rw [h3] at hb
      exact hb
  · refine ⟨r, hr, h3, ?_⟩
    intro r2 hr2
    have hb := h2 r2 hr2
    rw [h3] at hb
    exact hb

/-- Witness for C2: over the fixture batch (last-touched lengths 1, 3, 2
under the length parser) the candidate is `exRow2`'s value, the middle
record. -/
theorem sync_cursor_candidate_max_witness :
    (runBatch exEnv none AttDest.primaryStore true exRow1 [exRow2, exRow3]
      exWorld []).2 = none ∧
    (∃ r, r ∈ exRow1 :: [exRow2, exRow3] ∧
      (runBatch exEnv none AttDest.primaryStore true exRow1 [exRow2, exRow3]
        exWorld []).1.newcursor = lastTouched r ∧
      ∀ r2 ∈ exRow1 :: [exRow2, exRow3],
        exEnv.parse (lastTouched r2) ≤ exEnv.parse (lastTouched r)) :=
  ⟨rfl, sync_cursor_candidate_max exEnv none AttDest.primaryStore true
    exRow1 [exRow2, exRow3] exWorld [] rfl⟩

/-! ### C3 — cursor persistence conditions -/

/-- The loop's trace never holds cursor-store or timezone events when the
initial trace holds none. -/
theorem runBatch_no_epilogue_events (env : Env) (cursor : Option String) (dest : AttDest)
    (supp : Bool) (r0 : Row) (rs : List Row) (w : World) (tr : List Event)
    (htr : ∀ v, Event.storeMetadata CURSOR_METADATA_ID v ∉ tr)
    (htz : Event.setDataTimezoneUTC ∉ tr) :
    (∀ v, Event.storeMetadata CURSOR_METADATA_ID v
      ∉ (runBatch env cursor dest supp r0 rs w tr).1.trace) ∧
    Event.setDataTimezoneUTC ∉ (runBatch env cursor dest supp r0 rs w tr).1.trace := by
  constructor
  · intro v hv
    rcases runBatch_trace_mem env cursor dest supp r0 rs w tr _ hv with h | ⟨r, _, hsh⟩
    · exact htr v h
    · rcases hsh with ⟨h, _⟩ | ⟨_, h | ⟨n, h | h⟩⟩ | h <;> exact Event.noConfusion h
  · intro hv
    rcases runBatch_trace_mem env cursor dest supp r0 rs w tr _ hv with h | ⟨r, _, hsh⟩
    · exact htz h
    · rcases hsh with ⟨h, _⟩ | ⟨_, h | ⟨n, h | h⟩⟩ | h <;> exact Event.noConfusion h

/-- The initial trace of a run holds no store, metadata or timezone
events. -/
theorem syncTrace0_no_writes (a : SyncArgs) (w : World) :
    (∀ v, Event.storeMetadata CURSOR_METADATA_ID v ∉ syncTrace0 a w) ∧
    Event.setDataTimezoneUTC ∉ syncTrace0 a w ∧
    ∀ id, Event.storeSubmission id ∉ syncTrace0 a w := by
  refine ⟨fun v hv => ?_, fun hv => ?_, fun id hv => ?_⟩ <;>
    rcases syncTrace0_mem a w _ hv with h | h <;> exact Event.noConfusion h

/-- C3: on a non-empty batch, `sync_data` persists the cursor (and tags
the storage timezone as UTC) if and only if the per-record loop completes
without error and the final candidate differs from the cursor read at the
start; when any transport or storage error is raised mid-batch, the cursor
metadata is unchanged while every submission whose store event occurred
remains present in storage. -/
theorem sync_cursor_persist_iff (a : SyncArgs) (env : Env) (w : World)
    (r0 : Row) (rs : List Row)
    (hcl : a.clientSome = true) (hf : a.form_id ≠ "") (ht : env.table = some (r0 :: rs)) :
    ((∃ v, Event.storeMetadata CURSOR_METADATA_ID v ∈ (sync_data a env w).trace) ↔
      ((runBatch env (w.primary.getMetadata CURSOR_METADATA_ID)
          (resolveDest a.no_attachments a.separateProvided) (destSupportedFlag a)
          r0 rs w (syncTrace0 a w)).2 = none ∧
       w.primary.getMetadata CURSOR_METADATA_ID
         ≠ some (runBatch env (w.primary.getMetadata CURSOR_METADATA_ID)
             (resolveDest a.no_attachments a.separateProvided) (destSupportedFlag a)
             r0 rs w (syncTrace0 a w)).1.newcursor)) ∧
    ((Event.setDataTimezoneUTC ∈ (sync_data a env w).trace) ↔
      ((runBatch env (w.primary.getMetadata CURSOR_METADATA_ID)
          (resolveDest a.no_attachments a.separateProvided) (destSupportedFlag a)
          r0 rs w (syncTrace0 a w)).2 = none ∧
       w.primary.getMetadata CURSOR_METADATA_ID
         ≠ some (runBatch env (w.primary.getMetadata CURSOR_METADATA_ID)
             (resolveDest a.no_attachments a.separateProvided) (destSupportedFlag a)
             r0 rs w (syncTrace0 a w)).1.newcursor)) ∧
    (∀ e, (sync_data a env w).result = Except.error e →
      (sync_data a env w).world.primary.getMetadata CURSOR_METADATA_ID
        = w.primary.getMetadata CURSOR_METADATA_ID ∧
      ∀ id, Event.storeSubmission id ∈ (sync_data a env w).trace →
        (sync_data a env w).world.primary.query id = true) := by
  rw [sync_data_configOk a env w hcl hf, syncCore_batch a env w r0 rs ht]
  rcases hrb : runBatch env (w.primary.getMetadata CURSOR_METADATA_ID)
      (resolveDest a.no_attachments a.separateProvided) (destSupportedFlag a)
      r0 rs w (syncTrace0 a w) with ⟨stf, e⟩
  have hne := runBatch_no_epilogue_events env (w.primary.getMetadata CURSOR_METADATA_ID)
    (resolveDest a.no_attachments a.separateProvided) (destSupportedFlag a)
    r0 rs w (syncTrace0 a w) (syncTrace0_no_writes a w).1 (syncTrace0_no_writes a w).2.1
  have hsi := runBatch_stored_inv env (w.primary.getMetadata CURSOR_METADATA_ID)
    (resolveDest a.no_attachments a.separateProvided) (destSupportedFlag a)
    r0 rs w (syncTrace0 a w) (syncTrace0_no_writes a w).2.2
  have hfr := runBatch_frame env (w.primary.getMetadata CURSOR_METADATA_ID)
    (resolveDest a.no_attachments a.separateProvided) (destSupportedFlag a)
    r0 rs w (syncTrace0 a w)
  rw [hrb] at hne hsi hfr
  cases e with
  | some err =>
    rw [finishBatch_some]
    refine ⟨?_, ?_, ?_⟩
    · constructor
      · rintro ⟨v, hv⟩
        exact absurd hv (hne.1 v)
      · rintro ⟨h, _⟩
        exact Option.noConfusion h
    · constructor
      · intro hv
        exact absurd hv hne.2
      · rintro ⟨h, _⟩
        exact Option.noConfusion h
    · intro e2 _
      exact ⟨getMetadata_congr hfr.1 CURSOR_METADATA_ID, hsi⟩
  | none =>
    rw [finishBatch_none]
    by_cases hcnc : w.primary.getMetadata CURSOR_METADATA_ID = some stf.newcursor
    · rw [if_pos hcnc]
      refine ⟨?_, ?_, ?_⟩
      · constructor
        · rintro ⟨v, hv⟩
          exact absurd hv (hne.1 v)
        · rintro ⟨_, hnc⟩
          exact absurd hcnc hnc
      · constructor
        · intro hv
          exact absurd hv hne.2
        · rintro ⟨_, hnc⟩
          exact absurd hcnc hnc
      · intro e2 he2
        exact absurd he2 (by simp)
    · rw [if_neg hcnc]
      refine ⟨?_, ?_, ?_⟩
      · constructor
        · intro _
          exact ⟨rfl, hcnc⟩
        · intro _
          exact ⟨stf.newcursor, by simp⟩
      · constructor
        · intro _
          exact ⟨rfl, hcnc⟩
        · intro _
          simp
      · intro e2 he2
        exact absurd he2 (by simp)

/-- Witness for C3: a transport failure on the single attachment of the
fixture batch aborts the run with the cursor metadata untouched and the
first-written submission still stored. -/
theorem sync_cursor_persist_iff_witness :
    exArgs.clientSome = true ∧ exArgs.form_id ≠ "" ∧
    ({ exEnv with attBytesOk := fun _ _ => false }).table
      = some [exRow1, exRow2, exRow3] ∧
    ((∃ v, Event.storeMetadata CURSOR_METADATA_ID v
        ∈ (sync_data exArgs { exEnv with attBytesOk := fun _ _ => false } exWorld).trace) ↔
      ((runBatch { exEnv with attBytesOk := fun _ _ => false }
          (exWorld.primary.getMetadata CURSOR_METADATA_ID)
          (resolveDest exArgs.no_attachments exArgs.separateProvided)
          (destSupportedFlag exArgs) exRow1 [exRow2, exRow3] exWorld
          (syncTrace0 exArgs exWorld)).2 = none ∧
       exWorld.primary.getMetadata CURSOR_METADATA_ID
         ≠ some (runBatch { exEnv with attBytesOk := fun _ _ => false }
             (exWorld.primary.getMetadata CURSOR_METADATA_ID)
             (resolveDest exArgs.no_attachments exArgs.separateProvided)
             (destSupportedFlag exArgs) exRow1 [exRow2, exRow3] exWorld
             (syncTrace0 exArgs exWorld)).1.newcursor)) ∧
    ((Event.setDataTimezoneUTC
        ∈ (sync_data exArgs { exEnv with attBytesOk := fun _ _ => false } exWorld).trace) ↔
      ((runBatch { exEnv with attBytesOk := fun _ _ => false }
          (exWorld.primary.getMetadata CURSOR_METADATA_ID)
          (resolveDest exArgs.no_attachments exArgs.separateProvided)
          (destSupportedFlag exArgs) exRow1 [exRow2, exRow3] exWorld
          (syncTrace0 exArgs exWorld)).2 = none ∧
       exWorld.primary.getMetadata CURSOR_METADATA_ID
         ≠ some (runBatch { exEnv with attBytesOk := fun _ _ => false }
             (exWorld.primary.getMetadata CURSOR_METADATA_ID)
             (resolveDest exArgs.no_attachments exArgs.separateProvided)
             (destSupportedFlag exArgs) exRow1 [exRow2, exRow3] exWorld
             (syncTrace0 exArgs exWorld)).1.newcursor)) ∧
    (∀ e, (sync_data exArgs { exEnv with attBytesOk := fun _ _ => false } exWorld).result
        = Except.error e →
      (sync_data exArgs { exEnv with attBytesOk := fun _ _ => false }
        exWorld).world.primary.getMetadata CURSOR_METADATA_ID
        = exWorld.primary.getMetadata CURSOR_METADATA_ID ∧
      ∀ id, Event.storeSubmission id
          ∈ (sync_data exArgs { exEnv with attBytesOk := fun _ _ => false } exWorld).trace →
        (sync_data exArgs { exEnv with attBytesOk := fun _ _ => false }
          exWorld).world.primary.query id = true) :=
  ⟨rfl, by decide, rfl,
   sync_cursor_persist_iff exArgs { exEnv with attBytesOk := fun _ _ => false } exWorld
     exRow1 [exRow2, exRow3] rfl (by decide) rfl⟩

/-! ### C7 — attachment skip conditions and destination resolution -/

/-- C7: the attachment destination is none under `no_attachments`, else
the separate storage when provided, else the primary storage; no
attachment list fetch or byte fetch ever occurs when `no_attachments` is
set or the resolved destination does not support attachments; and no
attachment fetch ever occurs for a record whose attachment count is not
positive. -/
theorem sync_attachment_skip (a : SyncArgs) (env : Env) (w : World) :
    (resolveDest a.no_attachments a.separateProvided
      = (if a.no_attachments then AttDest.noStore
         else if a.separateProvided then AttDest.separateStore
         else AttDest.primaryStore)) ∧
    ((a.no_attachments = true ∨ destSupportedFlag a = false) →
      ∀ id n, Event.fetchAttachmentList id ∉ (sync_data a env w).trace ∧
        Event.fetchAttachmentBytes id n ∉ (sync_data a env w).trace) ∧
    (∀ rows, env.table = some rows → (rows.map Row.key).Nodup →
      ∀ r ∈ rows, r.attachmentsPresent ≤ 0 →
        ∀ n, Event.fetchAttachmentList r.key ∉ (sync_data a env w).trace ∧
          Event.fetchAttachmentBytes r.key n ∉ (sync_data a env w).trace) := by
  have hguard : ∀ ev : Event, ev ∈ (sync_data a env w).trace →
      (∀ id n2, ev ≠ Event.fetchAttachmentList id ∧ ev ≠ Event.fetchAttachmentBytes id n2) ∨
      ∃ rows r, env.table = some rows ∧ r ∈ rows ∧
        attachGuard (resolveDest a.no_attachments a.separateProvided)
          (destSupportedFlag a) r = true ∧
        (ev = Event.fetchAttachmentList r.key ∨
         ∃ n, ev = Event.fetchAttachmentBytes r.key n) := by
    intro ev hev
    rcases sync_trace_mem a env w ev hev with h | ⟨v, h⟩ | h | ⟨rows, r, hrows, hr, hsh⟩
    · rcases syncTrace0_mem a w ev h with h | h <;>
        exact Or.inl (fun id n2 => by rw [h]; exact ⟨Event.noConfusion, Event.noConfusion⟩)
    · exact Or.inl (fun id n2 => by rw [h]; exact ⟨Event.noConfusion, Event.noConfusion⟩)
    · exact Or.inl (fun id n2 => by rw [h]; exact ⟨Event.noConfusion, Event.noConfusion⟩)
    · rcases hsh with ⟨h, _⟩ | ⟨hg, hsh⟩ | h
      · exact Or.inl (fun id n2 => by rw [h]; exact ⟨Event.noConfusion, Event.noConfusion⟩)
      · rcases hsh with h | ⟨n, h | h⟩
        · exact Or.inr ⟨rows, r, hrows, hr, hg, Or.inl h⟩
        · exact Or.inr ⟨rows, r, hrows, hr, hg, Or.inr ⟨n, h⟩⟩
        · exact Or.inl (fun id n2 => by rw [h]; exact ⟨Event.noConfusion, Event.noConfusion⟩)
      · exact Or.inl (fun id n2 => by rw [h]; exact ⟨Event.noConfusion, Event.noConfusion⟩)
  refine ⟨rfl, ?_, ?_⟩
  · intro hcond id n
    constructor
    · intro hev
      rcases hguard _ hev with h | ⟨rows, r, _, _, hg, _⟩
      · exact (h id n).1 rfl
      · obtain ⟨hna, hsupp, _⟩ := attachGuard_conditions a r hg
        rcases hcond with hcond | hcond
        · rw [hna] at hcond
          exact Bool.noConfusion hcond
        · rw [hsupp] at hcond
          exact Bool.noConfusion hcond
    · intro hev
      rcases hguard _ hev with h | ⟨rows, r, _, _, hg, _⟩
      · exact (h id n).2 rfl
      · obtain ⟨hna, hsupp, _⟩ := attachGuard_conditions a r hg
        rcases hcond with hcond | hcond
        · rw [hna] at hcond
          exact Bool.noConfusion hcond
        · rw [hsupp] at hcond
          exact Bool.noConfusion hcond
  · intro rows htab hnd r hr hle n
    have hkey : ∀ ev : Event, ev ∈ (sync_data a env w).trace →
        (ev = Event.fetchAttachmentList r.key ∨ ev = Event.fetchAttachmentBytes r.key n) →
        False := by
      intro ev hev hshape
      rcases hguard _ hev with h | ⟨rows2, r2, hrows2, hr2, hg, hsh2⟩
      · rcases hshape with hs | hs
        · exact (h r.key n).1 hs
        · exact (h r.key n).2 hs
      · rw [htab] at hrows2
        have hrows2 := Option.some.inj hrows2
        subst hrows2
        have hk : r2.key = r.key := by
          rcases hshape with hs | hs <;> rcases hsh2 with h2 | ⟨n2, h2⟩ <;>
            rw [hs] at h2 <;> first
            | exact (Event.fetchAttachmentList.inj h2.symm)
            | exact Event.noConfusion h2
            | exact (Event.fetchAttachmentBytes.inj h2.symm).1
        have : r2 = r := List.inj_on_of_nodup_map hnd hr2 hr hk
        subst this
        obtain ⟨_, _, hpos⟩ := attachGuard_conditions a r2 hg
        exact absurd hpos (not_lt.mpr hle)
    exact ⟨fun hev => hkey _ hev (Or.inl rfl), fun hev => hkey _ hev (Or.inr rfl)⟩

/-- Witness for C7: a `no_attachments` run over the fixture batch performs
no attachment fetches at all, and in the fully-enabled run the zero-count
record `exRow1` never triggers a fetch. -/
theorem sync_attachment_skip_witness :
    (({ exArgs with no_attachments := true }.no_attachments = true ∨
        destSupportedFlag { exArgs with no_attachments := true } = false) ∧
     (∀ id n, Event.fetchAttachmentList id
          ∉ (sync_data { exArgs with no_attachments := true } exEnv exWorld).trace ∧
        Event.fetchAttachmentBytes id n
          ∉ (sync_data { exArgs with no_attachments := true } exEnv exWorld).trace)) ∧
    (exEnv.table = some [exRow1, exRow2, exRow3] ∧
     (([exRow1, exRow2, exRow3].map Row.key).Nodup) ∧
     exRow1 ∈ [exRow1, exRow2, exRow3] ∧
     exRow1.attachmentsPresent ≤ 0 ∧
     ∀ n, Event.fetchAttachmentList exRow1.key ∉ (sync_data exArgs exEnv exWorld).trace ∧
       Event.fetchAttachmentBytes exRow1.key n ∉ (sync_data exArgs exEnv exWorld).trace) :=
  ⟨⟨Or.inl rfl,
    (sync_attachment_skip { exArgs with no_attachments := true } exEnv exWorld).2.1
      (Or.inl rfl)⟩,
   rfl, by decide, List.mem_cons_self exRow1 _, by decide,
   fun n => (sync_attachment_skip exArgs exEnv exWorld).2.2 [exRow1, exRow2, exRow3]
     rfl (by decide) exRow1 (List.mem_cons_self exRow1 _) (by decide) n⟩

/-! ### C10 — the dedup comparison is exact string equality -/

/-- C10: `query_submission` is invoked only for records whose last-touched
string equals the cursor string exactly (the parsed instants play no role
— the timestamp parser is arbitrary here); every record whose last-touched
string differs is written, on a successful run, without its id ever being
queried. -/
theorem sync_dedup_exact_string (a : SyncArgs) (env : Env) (w : World)
    (r0 : Row) (rs : List Row)
    (hcl : a.clientSome = true) (hf : a.form_id ≠ "") (ht : env.table = some (r0 :: rs))
    (hnd : ((r0 :: rs).map Row.key).Nodup) :
    (∀ id, Event.querySubmission id ∈ (sync_data a env w).trace →
      ∃ r, r ∈ r0 :: rs ∧ r.key = id ∧
        w.primary.getMetadata CURSOR_METADATA_ID = some (lastTouched r)) ∧
    (∀ l, (sync_data a env w).result = Except.ok l →
      ∀ r, r ∈ r0 :: rs →
        w.primary.getMetadata CURSOR_METADATA_ID ≠ some (lastTouched r) →
        r.key ∈ l ∧ Event.querySubmission r.key ∉ (sync_data a env w).trace) := by
  have hquery : ∀ id, Event.querySubmission id ∈ (sync_data a env w).trace →
      ∃ r, r ∈ r0 :: rs ∧ r.key = id ∧
        w.primary.getMetadata CURSOR_METADATA_ID = some (lastTouched r) := by
    intro id hev
    rcases sync_trace_mem a env w _ hev with h | ⟨v, h⟩ | h | ⟨rows, r, htab2, hr, hsh⟩
    · rcases syncTrace0_mem a w _ h with h | h <;> exact Event.noConfusion h
    · exact Event.noConfusion h
    · exact Event.noConfusion h
    · rw [ht] at htab2
      have htab2 := Option.some.inj htab2
      subst htab2
      rcases hsh with ⟨heq, hcur⟩ | ⟨_, h2 | ⟨n, h2 | h2⟩⟩ | h2
      · exact ⟨r, hr, (Event.querySubmission.inj heq).symm, hcur⟩
      · exact Event.noConfusion h2
      · exact Event.noConfusion h2
      · exact Event.noConfusion h2
      · exact Event.noConfusion h2
  refine ⟨hquery, ?_⟩
  intro l hok r hr hne
  rw [sync_data_configOk a env w hcl hf, syncCore_batch a env w r0 rs ht] at hok
  obtain ⟨he, hl⟩ := (finishBatch_result_ok _ _ _ l).mp hok
  obtain ⟨hw, _⟩ := runBatch_sim env _ _ _ r0 rs w _ he
  constructor
  · rw [hl, hw]
    exact writtenIdsSpec_mem _ r hne (r0 :: rs) _ hr
  · intro hq
    obtain ⟨r2, hr2, hkey, hcur2⟩ := hquery r.key hq
    have : r2 = r := List.inj_on_of_nodup_map hnd hr2 hr hkey
    subst this
    exact hne hcur2

/-- Witness for C10: with the cursor set to `exRow1`'s last-touched value
`"a"`, only `exRow1` is queried; `exRow2` and `exRow3` differ from the
cursor string, are written, and are never queried. -/
theorem sync_dedup_exact_string_witness :
    exArgs.clientSome = true ∧ exArgs.form_id ≠ "" ∧
    exEnv.table = some [exRow1, exRow2, exRow3] ∧
    (([exRow1, exRow2, exRow3].map Row.key).Nodup) ∧
    ((∀ id, Event.querySubmission id
        ∈ (sync_data exArgs exEnv
            { exWorld with primary :=
              { exWorld.primary with meta := [(CURSOR_METADATA_ID, "a")] } }).trace →
      ∃ r, r ∈ exRow1 :: [exRow2, exRow3] ∧ r.key = id ∧
        ({ exWorld with primary :=
          { exWorld.primary with meta := [(CURSOR_METADATA_ID, "a")] }
          } : World).primary.getMetadata CURSOR_METADATA_ID = some (lastTouched r)) ∧
    (∀ l, (sync_data exArgs exEnv
          { exWorld with primary :=
            { exWorld.primary with meta := [(CURSOR_METADATA_ID, "a")] } }).result
        = Except.ok l →
      ∀ r, r ∈ exRow1 :: [exRow2, exRow3] →
        ({ exWorld with primary :=
          { exWorld.primary with meta := [(CURSOR_METADATA_ID, "a")] }
          } : World).primary.getMetadata CURSOR_METADATA_ID ≠ some (lastTouched r) →
        r.key ∈ l ∧ Event.querySubmission r.key
          ∉ (sync_data exArgs exEnv
              { exWorld with primary :=
                { exWorld.primary with meta := [(CURSOR_METADATA_ID, "a")] } }).trace)) :=
  ⟨rfl, by decide, rfl, by decide,
   sync_dedup_exact_string exArgs exEnv
     { exWorld with primary :=
       { exWorld.primary with meta := [(CURSOR_METADATA_ID, "a")] } }
     exRow1 [exRow2, exRow3] rfl (by decide) rfl (by decide)⟩

end SurveyData
